import Mathlib

set_option maxHeartbeats 1000000

namespace Fengine

/-- Argument-count policy of a function. Modelled from the spec: `ArgCount` lives in
`function.rs`, which is not among the available sources; section 3 of the spec defines it
as either `Fixed(n)` or `Variadic { min, max }`. -/
inductive ArgCount where
  | Fixed (n : Nat)
  | Variadic (vmin vmax : Nat)
deriving DecidableEq

/-- Modelled from the spec: for `Fixed n`, min = max = n. -/
def ArgCount.min : ArgCount → Nat
  | .Fixed n => n
  | .Variadic m _ => m

/-- Modelled from the spec: for `Fixed n`, min = max = n. -/
def ArgCount.max : ArgCount → Nat
  | .Fixed n => n
  | .Variadic _ m => m

/-- Modelled from the spec: `max_capped()` returns `max` for variadic, `n` for fixed. -/
def ArgCount.max_capped : ArgCount → Nat
  | .Fixed n => n
  | .Variadic _ m => m

/-- Modelled from the spec: `valid_arg_count(k)` returns true iff min ≤ k ≤ max. -/
def ArgCount.valid_arg_count (a : ArgCount) (k : Nat) : Bool :=
  decide (a.min ≤ k) && decide (k ≤ a.max)

/-- Variable scopes. Modelled from the spec: `VariableType` lives in `expression.rs`
(not among the available sources); kind ∈ Captured, Stack, Global, each carrying an index. -/
inductive VariableType where
  | Captured (addr : Nat)
  | Stack (addr : Nat)
  | Global (addr : Nat)
deriving DecidableEq

/-- Capture shape of a callable handle, parametric in the embedder's value type.
Modelled from the spec, section 3 (FunctionRef). -/
inductive FunctionType (V : Type) where
  | Static
  | CapturingDef (template : List VariableType)
  | CapturingRef (captures : List V)

/-- Callable handle. Modelled from the spec, section 3:
location, arg_count, stack_size, variable_count, function_type. -/
structure FunctionRef (V : Type) where
  location : Nat
  arg_count : ArgCount
  stack_size : Nat
  variable_count : Nat
  function_type : FunctionType V

/-- The embedder-supplied type system: the value domain and the capability set the
engine relies upon (spec section 3, "Value"). Mutation through shared references is
made explicit by threading a `World` (the heap of the embedder's value representation):
each operation consumes and returns the world. An operation on `&mut self` (assign)
additionally returns the new content of the mutated slot. -/
structure TypeSystem where
  Value : Type
  World : Type
  BinOp : Type
  UnOp : Type
  Init : Type
  NativeId : Type
  Ctx : Type
  uninitRef : World → Value × World
  defaultVal : World → Value × World
  cloneVal : Value → World → Value × World
  dupeRef : Value → World → Value × World
  assignVal : Value → Value → World → Value × World
  intoRef : Value → World → Value × World
  castToFunction : Value → World → Option (FunctionRef Value)
  ofFunction : FunctionRef Value → World → Value × World
  applyBin : BinOp → Value → Value → World → Value × World
  applyUn : UnOp → Value → World → Value × World
  applyInit : Init → List Value → World → Value × World

/-- Error taxonomy. Modelled from the spec: `error.rs` is not among the available
sources; section 7 fixes `IncorrectArgumentCount`, `InvalidInvocationTarget`, the
`Return` control signal, and embedder-defined host errors (collapsed here into one
constructor, `HostError`). -/
inductive FreightError where
  | IncorrectArgumentCount (expected_min expected_max actual : Nat)
  | InvalidInvocationTarget
  | Return (target : Nat)
  | HostError
deriving DecidableEq

/-- The expression algebra. Modelled from the spec (section 3, "Expression"): the enum
itself lives in `expression.rs`, not among the available sources, but every arm and its
payload shape is fixed by the spec and by the match in `evaluate`
(`execution_engine.rs`). Native function pointers are defunctionalized into an
embedder-chosen id type, applied through a table passed to the evaluator. -/
inductive Expression (TS : TypeSystem) where
  | RawValue (v : TS.Value)
  | Variable (var : VariableType)
  | BinaryOpEval (op : TS.BinOp) (l r : Expression TS)
  | UnaryOpEval (op : TS.UnOp) (x : Expression TS)
  | StaticFunctionCall (func : FunctionRef TS.Value) (args : List (Expression TS))
  | DynamicFunctionCall (func : Expression TS) (args : List (Expression TS))
  | FunctionCapture (func : FunctionRef TS.Value)
  | AssignStack (addr : Nat) (e : Expression TS)
  | AssignGlobal (addr : Nat) (e : Expression TS)
  | AssignDynamic (target value : Expression TS)
  | NativeFunctionCall (func : TS.NativeId) (args : List (Expression TS))
  | Initialize (ini : TS.Init) (args : List (Expression TS))
  | ReturnTarget (target : Nat) (e : Expression TS)
  | Return (target : Nat) (e : Expression TS)

/-- A compiled function record. Modelled from the spec, section 3 ("Function"):
ordered expressions, total stack size, arg-count policy. -/
structure Function (TS : TypeSystem) where
  expressions : List (Expression TS)
  stack_size : Nat
  arg_count : ArgCount

/-- The engine state, from `ExecutionEngine` in `execution_engine.rs`. The
`UnsafeCell<Vec<Function>>` is modelled as a plain list (single-threaded interior
mutability flattened into state passing); the embedder's value heap is carried in
`world`. -/
structure ExecutionEngine (TS : TypeSystem) where
  num_globals : Nat
  globals : List TS.Value
  functions : List (Function TS)
  entry_point : Nat
  stack_size : Nat
  return_value : TS.Value
  context : TS.Ctx
  world : TS.World

/-- Result of evaluating one expression: the Rust `Result<Value, FreightError>` together
with the mutated engine and the mutated frame (`&mut [Value]`). `panicOOB` is a Rust
panic from an out-of-bounds slot index; `outOfFuel` means the step budget of the shallow
embedding ran out before evaluation finished. -/
inductive EvalResult (TS : TypeSystem) where
  | ok (v : TS.Value) (s : ExecutionEngine TS) (stack : List TS.Value)
  | err (e : FreightError) (s : ExecutionEngine TS) (stack : List TS.Value)
  | panicOOB
  | outOfFuel

/-- Result of a function call (the callee's frame is dropped on return). -/
inductive CallResult (TS : TypeSystem) where
  | ok (v : TS.Value) (s : ExecutionEngine TS)
  | err (e : FreightError) (s : ExecutionEngine TS)
  | panicOOB
  | outOfFuel

/-- Result of evaluating an argument list. -/
inductive ArgsResult (TS : TypeSystem) where
  | ok (vs : List TS.Value) (s : ExecutionEngine TS) (stack : List TS.Value)
  | err (e : FreightError) (s : ExecutionEngine TS) (stack : List TS.Value)
  | panicOOB
  | outOfFuel

/-- Native function table: `fn(&mut ExecutionEngine, Vec<Value>) -> Result<Value>`,
defunctionalized over the embedder's id type. -/
def Natives (TS : TypeSystem) :=
  TS.NativeId → ExecutionEngine TS → List TS.Value → Except FreightError TS.Value × ExecutionEngine TS

/-- Push `k` fresh default-uninitialized values onto the end of `args`; this is the
`while args.len() < n { args.push(Value::uninitialized_reference()) }` and
`for _ in 0..func.variable_count { args.push(...) }` loops of `ExecutionEngine::call`. -/
def pushUninit (TS : TypeSystem) (args : List TS.Value) (k : Nat) (w : TS.World) :
    List TS.Value × TS.World :=
  match k with
  | 0 => (args, w)
  | k + 1 =>
    let p := TS.uninitRef w
    pushUninit TS (args ++ [p.1]) k p.2

/-- A list of `k` fresh default-uninitialized values (specification-side view of
`pushUninit` starting from the empty list). -/
def freshUninits (TS : TypeSystem) (k : Nat) (w : TS.World) : List TS.Value × TS.World :=
  pushUninit TS [] k w

/-- The capture slice `ExecutionEngine::call` hands to the body: the slice held by a
`CapturingRef`, and the empty slice otherwise. -/
def captureSlice {V : Type} (f : FunctionRef V) : List V :=
  match f.function_type with
  | .CapturingRef captures => captures
  | _ => []

/-- The slot a `VariableRef` names: `captured[*addr]`, `stack[*addr]` or
`engine.globals[*addr]` — the unchecked indexing shared by the `Variable` arm and the
capture-template resolution in `evaluate` (`execution_engine.rs`); `none` is an
out-of-bounds index, a Rust panic at the use sites. -/
def varSlot (TS : TypeSystem) (var : VariableType)
    (captured stack globals : List TS.Value) : Option TS.Value :=
  match var with
  | .Captured a => captured[a]?
  | .Stack a => stack[a]?
  | .Global a => globals[a]?

/-- Resolution of a capture template, from the `FunctionCapture` arm of `evaluate`
(`execution_engine.rs`): each `VariableRef` is resolved against the current captures,
frame or globals and `dupe_ref`-ed; an out-of-bounds entry is a Rust panic (`none`). -/
def resolveTemplate (TS : TypeSystem) (template : List VariableType)
    (captured stack globals : List TS.Value) (w : TS.World) :
    Option (List TS.Value × TS.World) :=
  match template with
  | [] => some ([], w)
  | var :: rest =>
    match varSlot TS var captured stack globals with
    | none => none
    | some slot =>
      let p := TS.dupeRef slot w
      match resolveTemplate TS rest captured stack globals p.2 with
      | none => none
      | some (vs, w2) => some (p.1 :: vs, w2)

mutual

/-- The expression evaluator, translated arm by arm from `evaluate` in
`execution_engine.rs` (variadic_functions feature off). `fuel` bounds recursion depth
of the shallow embedding; every recursive entry consumes one unit. -/
def evaluate (TS : TypeSystem) (fuel : Nat) (natives : Natives TS) (expr : Expression TS)
    (engine : ExecutionEngine TS) (stack captured : List TS.Value) : EvalResult TS :=
  match fuel with
  | 0 => .outOfFuel
  | fuel + 1 =>
    match expr with
    | .RawValue v =>
      let p := TS.cloneVal v engine.world
      .ok p.1 { engine with world := p.2 } stack
    | .Variable var =>
      match varSlot TS var captured stack engine.globals with
      | none => .panicOOB
      | some slot =>
        let p := TS.dupeRef slot engine.world
        .ok p.1 { engine with world := p.2 } stack
    | .BinaryOpEval op l r =>
      match evaluate TS fuel natives l engine stack captured with
      | .ok lv s1 st1 =>
        match evaluate TS fuel natives r s1 st1 captured with
        | .ok rv s2 st2 =>
          let p := TS.applyBin op lv rv s2.world
          .ok p.1 { s2 with world := p.2 } st2
        | other => other
      | other => other
    | .UnaryOpEval op x =>
      match evaluate TS fuel natives x engine stack captured with
      | .ok xv s1 st1 =>
        let p := TS.applyUn op xv s1.world
        .ok p.1 { s1 with world := p.2 } st1
      | other => other
    | .StaticFunctionCall func args =>
      match evalArgsWith TS fuel natives
          (fun v w => let q := TS.cloneVal v w; TS.intoRef q.1 q.2)
          args engine stack captured [] with
      | .ok collected s1 st1 =>
        match ExecutionEngine.call TS fuel natives func collected s1 with
        | .ok v s2 => .ok v s2 st1
        | .err e s2 => .err e s2 st1
        | .panicOOB => .panicOOB
        | .outOfFuel => .outOfFuel
      | .err e s1 st1 => .err e s1 st1
      | .panicOOB => .panicOOB
      | .outOfFuel => .outOfFuel
    | .DynamicFunctionCall funcExpr args =>
      match evaluate TS fuel natives funcExpr engine stack captured with
      | .ok fv s1 st1 =>
        match TS.castToFunction fv s1.world with
        | none => .err .InvalidInvocationTarget s1 st1
        | some func =>
          match evalArgsWith TS fuel natives
              (fun v w => let q := TS.cloneVal v w; TS.intoRef q.1 q.2)
              args s1 st1 captured [] with
          | .ok collected s2 st2 =>
            match ExecutionEngine.call TS fuel natives func collected s2 with
            | .ok v s3 => .ok v s3 st2
            | .err e s3 => .err e s3 st2
            | .panicOOB => .panicOOB
            | .outOfFuel => .outOfFuel
          | .err e s2 st2 => .err e s2 st2
          | .panicOOB => .panicOOB
          | .outOfFuel => .outOfFuel
      | other => other
    | .FunctionCapture func =>
      match func.function_type with
      | .CapturingDef template =>
        match resolveTemplate TS template captured stack engine.globals engine.world with
        | none => .panicOOB
        | some (slice, w1) =>
          let newRef : FunctionRef TS.Value :=
            { func with function_type := .CapturingRef slice }
          let p := TS.ofFunction newRef w1
          .ok p.1 { engine with world := p.2 } stack
      | _ => .err .InvalidInvocationTarget engine stack
    | .AssignStack addr e =>
      match evaluate TS fuel natives e engine stack captured with
      | .ok v s1 st1 =>
        match st1[addr]? with
        | none => .panicOOB
        | some slot =>
          let p := TS.assignVal slot v s1.world
          let q := TS.defaultVal p.2
          .ok q.1 { s1 with world := q.2 } (st1.set addr p.1)
      | other => other
    | .AssignGlobal addr e =>
      match evaluate TS fuel natives e engine stack captured with
      | .ok v s1 st1 =>
        match s1.globals[addr]? with
        | none => .panicOOB
        | some slot =>
          let p := TS.assignVal slot v s1.world
          let q := TS.defaultVal p.2
          .ok q.1 { s1 with globals := s1.globals.set addr p.1, world := q.2 } st1
      | other => other
    | .AssignDynamic target value =>
      match evaluate TS fuel natives target engine stack captured with
      | .ok tv s1 st1 =>
        let p := TS.dupeRef tv s1.world
        match evaluate TS fuel natives value { s1 with world := p.2 } st1 captured with
        | .ok vv s2 st2 =>
          let q := TS.assignVal p.1 vv s2.world
          let r := TS.defaultVal q.2
          .ok r.1 { s2 with world := r.2 } st2
        | other => other
      | other => other
    | .NativeFunctionCall func args =>
      match evalArgsWith TS fuel natives (fun v w => TS.cloneVal v w)
          args engine stack captured [] with
      | .ok collected s1 st1 =>
        match natives func s1 collected with
        | (.ok v, s2) => .ok v s2 st1
        | (.error e, s2) => .err e s2 st1
      | .err e s1 st1 => .err e s1 st1
      | .panicOOB => .panicOOB
      | .outOfFuel => .outOfFuel
    | .Initialize ini args =>
      match evalArgsWith TS fuel natives (fun v w => (v, w)) args engine stack captured [] with
      | .ok collected s1 st1 =>
        let p := TS.applyInit ini collected s1.world
        .ok p.1 { s1 with world := p.2 } st1
      | .err e s1 st1 => .err e s1 st1
      | .panicOOB => .panicOOB
      | .outOfFuel => .outOfFuel
    | .ReturnTarget target e =>
      match evaluate TS fuel natives e engine stack captured with
      | .ok v s1 st1 => .ok v s1 st1
      | .err (.Return t1) s1 st1 =>
        if t1 = target then .ok s1.return_value s1 st1
        else .err (.Return t1) s1 st1
      | .err e1 s1 st1 => .err e1 s1 st1
      | .panicOOB => .panicOOB
      | .outOfFuel => .outOfFuel
    | .Return target e =>
      match evaluate TS fuel natives e engine stack captured with
      | .ok v s1 st1 => .err (.Return target) { s1 with return_value := v } st1
      | other => other

/-- Left-to-right evaluation of an argument list, with the per-argument
post-processing of the corresponding arm (`clone().into_ref()` for static and dynamic
calls, `clone()` for native calls, nothing for initializers). -/
def evalArgsWith (TS : TypeSystem) (fuel : Nat) (natives : Natives TS)
    (post : TS.Value → TS.World → TS.Value × TS.World)
    (args : List (Expression TS)) (engine : ExecutionEngine TS)
    (stack captured : List TS.Value) (acc : List TS.Value) : ArgsResult TS :=
  match fuel with
  | 0 => .outOfFuel
  | fuel + 1 =>
    match args with
    | [] => .ok acc engine stack
    | a :: rest =>
      match evaluate TS fuel natives a engine stack captured with
      | .ok v s1 st1 =>
        let p := post v s1.world
        evalArgsWith TS fuel natives post rest { s1 with world := p.2 } st1 captured
          (acc ++ [p.1])
      | .err e s1 st1 => .err e s1 st1
      | .panicOOB => .panicOOB
      | .outOfFuel => .outOfFuel

/-- The call protocol, translated from `ExecutionEngine::call` in
`execution_engine.rs` (variadic_functions feature off): arity check, padding to
`max_capped`, `variable_count` extra local slots, function lookup, capture-slice
selection, body invocation. -/
def ExecutionEngine.call (TS : TypeSystem) (fuel : Nat) (natives : Natives TS)
    (func : FunctionRef TS.Value) (args : List TS.Value)
    (engine : ExecutionEngine TS) : CallResult TS :=
  match fuel with
  | 0 => .outOfFuel
  | fuel + 1 =>
    if !(func.arg_count.valid_arg_count args.length) then
      .err (.IncorrectArgumentCount func.arg_count.min func.arg_count.max args.length) engine
    else
      let p := pushUninit TS args (func.arg_count.max_capped - args.length) engine.world
      let q := pushUninit TS p.1 func.variable_count p.2
      match engine.functions[func.location]? with
      | none => .panicOOB
      | some f =>
        match func.function_type with
        | .CapturingRef captures =>
          Function.call TS fuel natives f q.1 captures { engine with world := q.2 }
        | _ => Function.call TS fuel natives f q.1 [] { engine with world := q.2 }

/-- Function-body execution. Modelled from the spec, section 4.2 (`Function::call`
lives in `function.rs`, not among the available sources): evaluate every expression in
order against the given frame and capture slice, return the last expression's value; an
empty body returns default-uninitialized. -/
def Function.call (TS : TypeSystem) (fuel : Nat) (natives : Natives TS) (f : Function TS)
    (stack captured : List TS.Value) (engine : ExecutionEngine TS) : CallResult TS :=
  match fuel with
  | 0 => .outOfFuel
  | fuel + 1 =>
    let p := TS.defaultVal engine.world
    runBody TS fuel natives f.expressions { engine with world := p.2 } stack captured p.1

/-- The loop inside `Function::call`: every non-last value is discarded, the last is
returned; a failure aborts the remainder. -/
def runBody (TS : TypeSystem) (fuel : Nat) (natives : Natives TS)
    (exprs : List (Expression TS)) (engine : ExecutionEngine TS)
    (stack captured : List TS.Value) (ret : TS.Value) : CallResult TS :=
  match fuel with
  | 0 => .outOfFuel
  | fuel + 1 =>
    match exprs with
    | [] => .ok ret engine
    | e :: rest =>
      match evaluate TS fuel natives e engine stack captured with
      | .ok v s1 st1 => runBody TS fuel natives rest s1 st1 captured v
      | .err e1 s1 _ => .err e1 s1
      | .panicOOB => .panicOOB
      | .outOfFuel => .outOfFuel

end

/-- Clone a value `n` times, threading the world; helper for `mkUninitVec`. -/
def cloneReplicate (TS : TypeSystem) (v : TS.Value) (n : Nat) (w : TS.World) :
    List TS.Value × TS.World :=
  match n with
  | 0 => ([], w)
  | n + 1 =>
    let p := TS.cloneVal v w
    let q := cloneReplicate TS v n p.2
    (p.1 :: q.1, q.2)

/-- Models the Rust expression `vec![Value::uninitialized_reference(); n]`: one fresh
default-uninitialized value, cloned to fill the remaining slots. -/
def mkUninitVec (TS : TypeSystem) (n : Nat) (w : TS.World) : List TS.Value × TS.World :=
  match n with
  | 0 => ([], w)
  | n + 1 =>
    let p := TS.uninitRef w
    let q := cloneReplicate TS p.1 n p.2
    (p.1 :: q.1, q.2)

/-- Translated from `ExecutionEngine::run`: re-initialize `globals` to `num_globals`
default-uninitialized slots, look up the entry function, invoke its body on a fresh
frame of `stack_size` default-uninitialized slots with an empty capture slice. -/
def ExecutionEngine.run (TS : TypeSystem) (fuel : Nat) (natives : Natives TS)
    (engine : ExecutionEngine TS) : CallResult TS :=
  let p := mkUninitVec TS engine.num_globals engine.world
  let engine1 := { engine with globals := p.1, world := p.2 }
  match engine1.functions[engine1.entry_point]? with
  | none => .panicOOB
  | some main =>
    let q := mkUninitVec TS engine1.stack_size engine1.world
    Function.call TS fuel natives main q.1 [] { engine1 with world := q.2 }

/-- Translated from `ExecutionEngine::create_global`: push one default-uninitialized
slot, return `globals.len() - 1`. -/
def ExecutionEngine.create_global (TS : TypeSystem) (engine : ExecutionEngine TS) :
    Nat × ExecutionEngine TS :=
  let p := TS.uninitRef engine.world
  let engine1 := { engine with globals := engine.globals ++ [p.1], world := p.2 }
  (engine1.globals.length - 1, engine1)

/-- Builder for a function under registration. Modelled from the spec, section 2
("Function record") and 4.1: body, declared arity, stack size, variable-slot count,
capture shape. `FunctionWriter` lives in `function.rs`, not among the available
sources. -/
structure FunctionWriter (TS : TypeSystem) where
  expressions : List (Expression TS)
  arg_count : ArgCount
  stack_size : Nat
  variable_count : Nat
  function_type : FunctionType TS.Value

/-- Modelled from the spec, section 4.1: `to_ref` produces the callable handle carrying
the next function id. -/
def FunctionWriter.to_ref (TS : TypeSystem) (fw : FunctionWriter TS) (location : Nat) :
    FunctionRef TS.Value :=
  { location := location, arg_count := fw.arg_count, stack_size := fw.stack_size,
    variable_count := fw.variable_count, function_type := fw.function_type }

/-- Modelled from the spec, section 4.1: `build` finalizes the body into a function
record. The spec says the embedder's builder emits the final `ReturnTarget` wrapper
with the given id; that wrapping happens inside the writer (missing from the available
sources), so the body is kept abstract as the writer's expression list — the claims
settled here depend only on the record being appended, not on its body. -/
def FunctionWriter.build (TS : TypeSystem) (fw : FunctionWriter TS) (_return_target : Nat) :
    Function TS :=
  { expressions := fw.expressions, stack_size := fw.stack_size, arg_count := fw.arg_count }

/-- Translated from `ExecutionEngine::register_function`: take the next function id,
build the function, append it to the table, return the handle. -/
def ExecutionEngine.register_function (TS : TypeSystem) (engine : ExecutionEngine TS)
    (fw : FunctionWriter TS) (return_target : Nat) :
    FunctionRef TS.Value × ExecutionEngine TS :=
  let func_ref := FunctionWriter.to_ref TS fw engine.functions.length
  let func := FunctionWriter.build TS fw return_target
  (func_ref, { engine with functions := engine.functions ++ [func] })

/-- A concrete integer-valued embedder value type, used to run the engine on explicit
programs (the spec's section 8 scenarios assume such a type system). A value is
uninitialized, an integer, or an embedded function handle. -/
inductive IVal where
  | uninit
  | int (n : Int)
  | fn (fr : FunctionRef IVal)

/-- Binary operators of the concrete integer type system. -/
inductive IBinOp where
  | add

/-- A concrete direct-valued type system over `IVal`: values carry no shared heap
(`World` is trivial), `dupe_ref` and `clone` are the identity, and `assign` overwrites
the slot it is applied to. This is a legitimate embedder instantiation of the value
contract, adequate for exercising the engine's orchestration on explicit inputs. -/
def IntTS : TypeSystem where
  Value := IVal
  World := Unit
  BinOp := IBinOp
  UnOp := Unit
  Init := Unit
  NativeId := Nat
  Ctx := Unit
  uninitRef := fun _ => (.uninit, ())
  defaultVal := fun _ => (.uninit, ())
  cloneVal := fun v _ => (v, ())
  dupeRef := fun v _ => (v, ())
  assignVal := fun _ v _ => (v, ())
  intoRef := fun v _ => (v, ())
  castToFunction := fun v _ => match v with | .fn fr => some fr | _ => none
  ofFunction := fun fr _ => (.fn fr, ())
  applyBin := fun _ l r _ =>
    (match l, r with | .int a, .int b => .int (a + b) | _, _ => .uninit, ())
  applyUn := fun _ v _ => (v, ())
  applyInit := fun _ _ _ => (.uninit, ())

/-- A native table that does nothing: every native returns uninitialized and leaves
the engine untouched. -/
def trivNatives : Natives IntTS := fun _ s _ => (Except.ok IVal.uninit, s)

/-- Build a concrete engine state over the integer type system. -/
def mkIntEngine (ng : Nat) (globals : List IVal) (fns : List (Function IntTS))
    (ep ss : Nat) (rv : IVal) : ExecutionEngine IntTS :=
  { num_globals := ng, globals := globals, functions := fns, entry_point := ep,
    stack_size := ss, return_value := rv, context := (), world := () }

/-- Numeric projection of a concrete value. -/
def IVal.asInt : IVal → Option Int
  | .int n => some n
  | _ => none

/-- The error of a result, if it is an error. -/
def EvalResult.errOf (TS : TypeSystem) : EvalResult TS → Option FreightError
  | .err e _ _ => some e
  | _ => none

/-- The value of a result, if it succeeded. -/
def EvalResult.valueOf (TS : TypeSystem) : EvalResult TS → Option TS.Value
  | .ok v _ _ => some v
  | _ => none

/-- The engine state carried by a result, when there is one. -/
def EvalResult.stateOf (TS : TypeSystem) : EvalResult TS → Option (ExecutionEngine TS)
  | .ok _ s _ => some s
  | .err _ s _ => some s
  | _ => none

/-- The frame carried by a result, when there is one. -/
def EvalResult.stackOf (TS : TypeSystem) : EvalResult TS → Option (List TS.Value)
  | .ok _ _ st => some st
  | .err _ _ st => some st
  | _ => none

/-- The `return_value` scratch slot of the engine state a result carries. -/
def EvalResult.returnValueOf (TS : TypeSystem) (r : EvalResult TS) : Option TS.Value :=
  (r.stateOf TS).map (fun s => s.return_value)

/-- The error of a call result, if it is an error. -/
def CallResult.errOf (TS : TypeSystem) : CallResult TS → Option FreightError
  | .err e _ => some e
  | _ => none

/-- The value of a call result, if it succeeded. -/
def CallResult.valueOf (TS : TypeSystem) : CallResult TS → Option TS.Value
  | .ok v _ => some v
  | _ => none

/-- The engine state carried by a call result, when there is one. -/
def CallResult.stateOf (TS : TypeSystem) : CallResult TS → Option (ExecutionEngine TS)
  | .ok _ s => some s
  | .err _ s => some s
  | _ => none

/-- States that a predicate holds of the engine state a result carries, and that the
error it carries (if any) satisfies the error predicate; vacuous for panics and fuel
exhaustion. -/
def EvalResult.Preserves (TS : TypeSystem) (SP : ExecutionEngine TS → Prop)
    (EE : FreightError → Prop) : EvalResult TS → Prop
  | .ok _ s _ => SP s
  | .err e s _ => SP s ∧ EE e
  | .panicOOB => True
  | .outOfFuel => True

/-- `EvalResult.Preserves` for call results. -/
def CallResult.Preserves (TS : TypeSystem) (SP : ExecutionEngine TS → Prop)
    (EE : FreightError → Prop) : CallResult TS → Prop
  | .ok _ s => SP s
  | .err e s => SP s ∧ EE e
  | .panicOOB => True
  | .outOfFuel => True

/-- `EvalResult.Preserves` for argument-list results. -/
def ArgsResult.Preserves (TS : TypeSystem) (SP : ExecutionEngine TS → Prop)
    (EE : FreightError → Prop) : ArgsResult TS → Prop
  | .ok _ s _ => SP s
  | .err e s _ => SP s ∧ EE e
  | .panicOOB => True
  | .outOfFuel => True

mutual

/-- Decides whether every subexpression of `e` satisfies the arm test `P`
(including `e` itself). -/
def Expression.allSub (TS : TypeSystem) (P : Expression TS → Bool) :
    Expression TS → Bool
  | .RawValue v => P (.RawValue v)
  | .Variable var => P (.Variable var)
  | .BinaryOpEval op l r =>
    P (.BinaryOpEval op l r) && Expression.allSub TS P l && Expression.allSub TS P r
  | .UnaryOpEval op x => P (.UnaryOpEval op x) && Expression.allSub TS P x
  | .StaticFunctionCall f args =>
    P (.StaticFunctionCall f args) && Expression.allSubList TS P args
  | .DynamicFunctionCall f args =>
    P (.DynamicFunctionCall f args) && Expression.allSub TS P f &&
      Expression.allSubList TS P args
  | .FunctionCapture f => P (.FunctionCapture f)
  | .AssignStack addr e => P (.AssignStack addr e) && Expression.allSub TS P e
  | .AssignGlobal addr e => P (.AssignGlobal addr e) && Expression.allSub TS P e
  | .AssignDynamic t v =>
    P (.AssignDynamic t v) && Expression.allSub TS P t && Expression.allSub TS P v
  | .NativeFunctionCall f args =>
    P (.NativeFunctionCall f args) && Expression.allSubList TS P args
  | .Initialize ini args => P (.Initialize ini args) && Expression.allSubList TS P args
  | .ReturnTarget t e => P (.ReturnTarget t e) && Expression.allSub TS P e
  | .Return t e => P (.Return t e) && Expression.allSub TS P e

/-- `Expression.allSub` over a list of expressions. -/
def Expression.allSubList (TS : TypeSystem) (P : Expression TS → Bool) :
    List (Expression TS) → Bool
  | [] => true
  | e :: rest => Expression.allSub TS P e && Expression.allSubList TS P rest

end

/-- Arm test: `e` is not a `Return` expression (at the root). -/
def notReturnArm (TS : TypeSystem) : Expression TS → Bool
  | .Return _ _ => false
  | _ => true

/-- Arm test: `e` is neither a `DynamicFunctionCall` nor a `FunctionCapture`
(at the root). -/
def notInvArm (TS : TypeSystem) : Expression TS → Bool
  | .DynamicFunctionCall _ _ => false
  | .FunctionCapture _ => false
  | _ => true

/-- An invariant frame for the evaluator: a state predicate `SP` preserved by every
evaluation step, an expression predicate `EP` restricting which arms occur (closed
under subexpressions), and an error predicate `EE` bounding which errors can be
produced. The fields state exactly the closure conditions the recursive evaluator
needs: stability of `SP` under the three kinds of state update the engine performs
(world changes, global-slot assignment, return-value deposit), that every function
body in a state satisfying `SP` is `EP`-clean, that the produced errors satisfy `EE`,
that natives respect `SP` and `EE`, and subexpression closure of `EP`. -/
structure EvalCond (TS : TypeSystem) (natives : Natives TS) where
  SP : ExecutionEngine TS → Prop
  EP : Expression TS → Prop
  EE : FreightError → Prop
  sp_world : ∀ (s : ExecutionEngine TS) w, SP s → SP { s with world := w }
  sp_set_global : ∀ (s : ExecutionEngine TS) i v w, SP s →
    SP { s with globals := s.globals.set i v, world := w }
  sp_ret : ∀ t (e : Expression TS), EP (.Return t e) →
    ∀ (s : ExecutionEngine TS) v, SP s → SP { s with return_value := v }
  sp_table : ∀ s, SP s → ∀ fn ∈ s.functions, ∀ e ∈ fn.expressions, EP e
  ee_argcount : ∀ a b c, EE (.IncorrectArgumentCount a b c)
  ee_ret : ∀ t (e : Expression TS), EP (.Return t e) → EE (.Return t)
  ee_inv_dyn : ∀ (fe : Expression TS) args, EP (.DynamicFunctionCall fe args) →
    EE .InvalidInvocationTarget
  ee_inv_cap : ∀ f : FunctionRef TS.Value, EP (.FunctionCapture f) →
    EE .InvalidInvocationTarget
  natives_ok : ∀ id s args, SP s →
    SP (natives id s args).2 ∧ ∀ e, (natives id s args).1 = .error e → EE e
  ep_bin : ∀ op l r, EP (.BinaryOpEval op l r) → EP l ∧ EP r
  ep_un : ∀ op x, EP (.UnaryOpEval op x) → EP x
  ep_static : ∀ f args, EP (.StaticFunctionCall f args) → ∀ a ∈ args, EP a
  ep_dyn : ∀ (fe : Expression TS) args, EP (.DynamicFunctionCall fe args) →
    EP fe ∧ ∀ a ∈ args, EP a
  ep_assign_stack : ∀ i e, EP (.AssignStack i e) → EP e
  ep_assign_global : ∀ i e, EP (.AssignGlobal i e) → EP e
  ep_assign_dyn : ∀ t v, EP (.AssignDynamic t v) → EP t ∧ EP v
  ep_native : ∀ id args, EP (.NativeFunctionCall id args) → ∀ a ∈ args, EP a
  ep_init : ∀ ini args, EP (.Initialize ini args) → ∀ a ∈ args, EP a
  ep_rt : ∀ t e, EP (.ReturnTarget t e) → EP e
  ep_ret : ∀ t e, EP (.Return t e) → EP e

/-- Concrete capturing definition: a handle whose template names frame slot 0,
global slot 1 and capture slot 0. -/
def capDefRef : FunctionRef IVal :=
  { location := 3, arg_count := .Fixed 0, stack_size := 1, variable_count := 0,
    function_type := .CapturingDef [.Stack 0, .Global 1, .Captured 0] }

/-- Concrete handle that is already a capturing reference (over no captures). -/
def capRefHandle : FunctionRef IVal :=
  { location := 0, arg_count := .Fixed 0, stack_size := 0, variable_count := 0,
    function_type := .CapturingRef [] }

/-- Concrete entry function with a trivial constant body. -/
def entryConst : Function IntTS :=
  { expressions := [.RawValue (.int 1)], stack_size := 0, arg_count := .Fixed 0 }

/-- States that every function body in the engine's table contains no `Return`
expression. -/
def RetFreeState (TS : TypeSystem) (s : ExecutionEngine TS) : Prop :=
  ∀ fn ∈ s.functions, ∀ e ∈ Function.expressions fn,
    Expression.allSub TS (notReturnArm TS) e = true

/-- States that every function body in the engine's table contains no
`DynamicFunctionCall` and no `FunctionCapture` expression. -/
def InvFreeState (TS : TypeSystem) (s : ExecutionEngine TS) : Prop :=
  ∀ fn ∈ s.functions, ∀ e ∈ Function.expressions fn,
    Expression.allSub TS (notInvArm TS) e = true

/-- Concrete function: adds its two arguments (the spec's S2 shape). -/
def addTwoFn : Function IntTS :=
  { expressions := [.BinaryOpEval IBinOp.add (.Variable (.Stack 0)) (.Variable (.Stack 1))],
    stack_size := 2, arg_count := .Fixed 2 }

/-- Concrete handle to `addTwoFn` at table slot 1 (arity two, static). -/
def addTwoRef : FunctionRef IVal :=
  { location := 1, arg_count := .Fixed 2, stack_size := 2, variable_count := 0,
    function_type := .Static }

/-- Concrete entry function whose body calls an arity-two function with no
arguments (the spec's S5 shape, nested inside the entry body). -/
def entryBadCall : Function IntTS :=
  { expressions := [.StaticFunctionCall addTwoRef []], stack_size := 0,
    arg_count := .Fixed 0 }

/-- Concrete engine whose entry body performs a wrong-arity call. -/
def cexRunEngine : ExecutionEngine IntTS :=
  mkIntEngine 0 [] [entryBadCall, addTwoFn] 0 0 .uninit

/-- Concrete entry function whose own arity policy rejects zero arguments but whose
body is a bare constant. -/
def entryRejecting : Function IntTS :=
  { expressions := [.RawValue (.int 4)], stack_size := 0, arg_count := .Fixed 2 }

/-- Concrete engine whose entry function's arity policy rejects zero arguments. -/
def wEng9 : ExecutionEngine IntTS := mkIntEngine 0 [] [entryRejecting] 0 0 .uninit

/-- Lemmas section begins here; everything below is a theorem about the definitions
above. -/
theorem pushUninit_eq_append (TS : TypeSystem) (k : Nat) :
    ∀ (args : List TS.Value) (w : TS.World),
      pushUninit TS args k w =
        (args ++ (freshUninits TS k w).1, (freshUninits TS k w).2) := by
  induction k with
  | zero => intro args w; simp [pushUninit, freshUninits]
  | succ k ih =>
    intro args w
    simp only [pushUninit, freshUninits]
    rw [ih (args ++ [(TS.uninitRef w).1]) (TS.uninitRef w).2]
    simp only [List.nil_append]
    rw [ih [(TS.uninitRef w).1] (TS.uninitRef w).2]
    simp

/-- Claim C1: `ExecutionEngine::call` fails with `IncorrectArgumentCount` carrying
`arg_count.min()`, `arg_count.max()` and the actual length exactly when
`valid_arg_count` rejects the argument count, leaving the engine untouched; when the
count is accepted it instead invokes the function body (through `Function.call`) on
some prepared frame with the selected capture slice. -/
theorem call_arity_check (TS : TypeSystem) (fuel : Nat) (natives : Natives TS)
    (f : FunctionRef TS.Value) (args : List TS.Value) (s : ExecutionEngine TS) :
    (f.arg_count.valid_arg_count args.length = false →
      ExecutionEngine.call TS (fuel + 1) natives f args s =
        .err (.IncorrectArgumentCount f.arg_count.min f.arg_count.max args.length) s)
    ∧ (∀ fn, f.arg_count.valid_arg_count args.length = true →
        s.functions[f.location]? = some fn →
        ∃ frame s1, ExecutionEngine.call TS (fuel + 1) natives f args s =
          Function.call TS fuel natives fn frame (captureSlice f) s1) := by
  constructor
  · intro h
    simp [ExecutionEngine.call, h]
  · intro fn hv hfn
    refine ⟨(pushUninit TS
        (pushUninit TS args (f.arg_count.max_capped - args.length) s.world).1
        f.variable_count
        (pushUninit TS args (f.arg_count.max_capped - args.length) s.world).2).1,
      { s with world := (pushUninit TS
        (pushUninit TS args (f.arg_count.max_capped - args.length) s.world).1
        f.variable_count
        (pushUninit TS args (f.arg_count.max_capped - args.length) s.world).2).2 }, ?_⟩
    simp only [ExecutionEngine.call, hv, Bool.not_true, Bool.false_eq_true, if_false, hfn]
    cases hft : f.function_type with
    | Static => simp [captureSlice, hft]
    | CapturingDef t => simp [captureSlice, hft]
    | CapturingRef c => simp [captureSlice, hft]

/-- Claim C3: on a valid argument count, `ExecutionEngine::call` prepares the callee's
frame as the arguments followed by fresh default-uninitialized padding up to
`max_capped()` followed by `variable_count` further fresh default-uninitialized local
slots, and passes the capture slice held by a `CapturingRef` function type (the empty
slice for `Static` or `CapturingDef`). -/
theorem call_frame_preparation (TS : TypeSystem) (fuel : Nat) (natives : Natives TS)
    (f : FunctionRef TS.Value) (args : List TS.Value) (s : ExecutionEngine TS)
    (fn : Function TS)
    (hv : f.arg_count.valid_arg_count args.length = true)
    (hfn : s.functions[f.location]? = some fn) :
    ExecutionEngine.call TS (fuel + 1) natives f args s =
      Function.call TS fuel natives fn
        (args ++ (freshUninits TS (f.arg_count.max_capped - args.length) s.world).1
              ++ (freshUninits TS f.variable_count
                    (freshUninits TS (f.arg_count.max_capped - args.length) s.world).2).1)
        (captureSlice f)
        { s with world := (freshUninits TS f.variable_count
            (freshUninits TS (f.arg_count.max_capped - args.length) s.world).2).2 } := by
  simp only [ExecutionEngine.call, hv, Bool.not_true, Bool.false_eq_true, if_false, hfn]
  rw [pushUninit_eq_append TS (f.arg_count.max_capped - args.length) args s.world]
  rw [pushUninit_eq_append TS f.variable_count]
  cases hft : f.function_type with
  | Static => simp [captureSlice, hft, List.append_assoc]
  | CapturingDef t => simp [captureSlice, hft, List.append_assoc]
  | CapturingRef c => simp [captureSlice, hft, List.append_assoc]

/-- Claim C9 (amended): `ExecutionEngine::run` performs no argument-count check of its
own: whatever the entry function's arg-count policy (including one rejecting zero
arguments), it invokes the entry body directly through `Function.call` on a frame of
`stack_size` default-uninitialized slots with the empty capture slice, after
re-initializing `globals` to `num_globals` default-uninitialized slots. -/
theorem run_bypasses_arity (TS : TypeSystem) (fuel : Nat) (natives : Natives TS)
    (s : ExecutionEngine TS) (main : Function TS)
    (hmain : s.functions[s.entry_point]? = some main) :
    ExecutionEngine.run TS fuel natives s =
      Function.call TS fuel natives main
        (mkUninitVec TS s.stack_size (mkUninitVec TS s.num_globals s.world).2).1 []
        { s with globals := (mkUninitVec TS s.num_globals s.world).1,
                 world := (mkUninitVec TS s.stack_size
                   (mkUninitVec TS s.num_globals s.world).2).2 } := by
  simp only [ExecutionEngine.run, hmain]

/-- Claim C9, counterexample to the unamended claim: a run whose entry body contains a
wrong-arity call does fail with `IncorrectArgumentCount` (here expected 2..2, actual
0), so "run never fails with IncorrectArgumentCount" is false as a statement about the
whole invocation; run only bypasses the check for the entry call itself. -/
theorem run_incorrect_argcount_cex :
    (ExecutionEngine.run IntTS 10 trivNatives cexRunEngine).errOf IntTS
      = some (.IncorrectArgumentCount 2 2 0) := by decide

/-- Claim C9, witness: an entry function whose arity policy rejects zero arguments is
still invoked directly by `run` (conclusion instantiated by `run_bypasses_arity`), and
the whole run returns its body's value. -/
theorem run_bypasses_arity_witness :
    (ExecutionEngine.run IntTS 7 trivNatives wEng9 =
      Function.call IntTS 7 trivNatives entryRejecting
        (mkUninitVec IntTS wEng9.stack_size (mkUninitVec IntTS wEng9.num_globals wEng9.world).2).1 []
        { wEng9 with globals := (mkUninitVec IntTS wEng9.num_globals wEng9.world).1,
                     world := (mkUninitVec IntTS wEng9.stack_size
                       (mkUninitVec IntTS wEng9.num_globals wEng9.world).2).2 })
    ∧ ArgCount.valid_arg_count (ArgCount.Fixed 2) 0 = false
    ∧ (ExecutionEngine.run IntTS 7 trivNatives wEng9).valueOf IntTS = some (.int 4) :=
  ⟨run_bypasses_arity IntTS 7 trivNatives wEng9 entryRejecting rfl, by decide, rfl⟩

/-- Claim C1, witness: a concrete arity-two function called with zero arguments yields
the exact `IncorrectArgumentCount` error, and called with two arguments it reaches its
body; both conclusions instantiated from `call_arity_check`. -/
theorem call_arity_check_witness :
    (ExecutionEngine.call IntTS 6 trivNatives addTwoRef [] cexRunEngine =
      .err (.IncorrectArgumentCount 2 2 0) cexRunEngine)
    ∧ (∃ frame s1,
        ExecutionEngine.call IntTS 6 trivNatives addTwoRef [.int 10, .int 32] cexRunEngine =
          Function.call IntTS 5 trivNatives addTwoFn frame (captureSlice addTwoRef) s1) :=
  ⟨(call_arity_check IntTS 5 trivNatives addTwoRef [] cexRunEngine).1 rfl,
   (call_arity_check IntTS 5 trivNatives addTwoRef [.int 10, .int 32] cexRunEngine).2
     addTwoFn rfl rfl⟩

/-- Claim C3, witness: the concrete frame handed to the arity-two function is the two
arguments (no padding, no locals here), with the empty capture slice; conclusion
instantiated from `call_frame_preparation`, plus the fact the whole call computes the
sum. -/
theorem call_frame_preparation_witness :
    (ExecutionEngine.call IntTS 6 trivNatives addTwoRef [.int 10, .int 32] cexRunEngine =
      Function.call IntTS 5 trivNatives addTwoFn
        ([.int 10, .int 32]
          ++ (freshUninits IntTS (ArgCount.max_capped (.Fixed 2) - 2) cexRunEngine.world).1
          ++ (freshUninits IntTS 0
                (freshUninits IntTS (ArgCount.max_capped (.Fixed 2) - 2) cexRunEngine.world).2).1)
        (captureSlice addTwoRef)
        { cexRunEngine with world := (freshUninits IntTS 0
            (freshUninits IntTS (ArgCount.max_capped (.Fixed 2) - 2) cexRunEngine.world).2).2 })
    ∧ (ExecutionEngine.call IntTS 6 trivNatives addTwoRef [.int 10, .int 32]
        cexRunEngine).valueOf IntTS = some (.int 42) :=
  ⟨call_frame_preparation IntTS 5 trivNatives addTwoRef [.int 10, .int 32] cexRunEngine
     addTwoFn rfl rfl, rfl⟩

/-- Claim C2: `Return(t, e)` evaluates `e`, deposits its value in
`engine.return_value`, and fails with the `Return { target: t }` signal;
`ReturnTarget(t, body)` returns the body's value on success, intercepts a matching
`Return` and returns `engine.return_value`, and re-propagates a mismatched `Return`
(so `ReturnTarget(t, Return(t, e))` yields the value of `e` while
`ReturnTarget(t, Return(t', e))` with `t' ≠ t` propagates `Return(t')`), and
re-propagates every non-`Return` failure. -/
theorem eval_Return_ok (TS : TypeSystem) (fuel : Nat) (natives : Natives TS) (t : Nat)
    (e : Expression TS) (s s1 : ExecutionEngine TS) (st cap st1 : List TS.Value)
    (v : TS.Value) (h : evaluate TS fuel natives e s st cap = .ok v s1 st1) :
    evaluate TS (fuel + 1) natives (.Return t e) s st cap =
      .err (.Return t) { s1 with return_value := v } st1 := by
  simp only [evaluate, h]

theorem eval_ReturnTarget_ok (TS : TypeSystem) (fuel : Nat) (natives : Natives TS)
    (t : Nat) (e : Expression TS) (s s1 : ExecutionEngine TS)
    (st cap st1 : List TS.Value) (v : TS.Value)
    (h : evaluate TS fuel natives e s st cap = .ok v s1 st1) :
    evaluate TS (fuel + 1) natives (.ReturnTarget t e) s st cap = .ok v s1 st1 := by
  simp only [evaluate, h]

theorem eval_ReturnTarget_matching (TS : TypeSystem) (fuel : Nat) (natives : Natives TS)
    (t : Nat) (e : Expression TS) (s s1 : ExecutionEngine TS)
    (st cap st1 : List TS.Value)
    (h : evaluate TS fuel natives e s st cap = .err (.Return t) s1 st1) :
    evaluate TS (fuel + 1) natives (.ReturnTarget t e) s st cap =
      .ok s1.return_value s1 st1 := by
  simp only [evaluate, h]
  simp

theorem eval_ReturnTarget_other (TS : TypeSystem) (fuel : Nat) (natives : Natives TS)
    (t : Nat) (e : Expression TS) (s s1 : ExecutionEngine TS)
    (st cap st1 : List TS.Value) (e1 : FreightError)
    (h : evaluate TS fuel natives e s st cap = .err e1 s1 st1)
    (hne : ∀ t2, e1 = FreightError.Return t2 → t2 ≠ t) :
    evaluate TS (fuel + 1) natives (.ReturnTarget t e) s st cap = .err e1 s1 st1 := by
  cases e1 with
  | Return t2 =>
    have ht2 : t2 ≠ t := hne t2 rfl
    simp only [evaluate, h]
    simp [ht2]
  | IncorrectArgumentCount a b c => simp only [evaluate, h]
  | InvalidInvocationTarget => simp only [evaluate, h]
  | HostError => simp only [evaluate, h]

/-- Claim C2: `Return(t, e)` evaluates `e`, deposits its value in
`engine.return_value`, and fails with the `Return { target: t }` signal;
`ReturnTarget(t, body)` returns the body's value on success, intercepts a matching
`Return` and returns `engine.return_value`, and re-propagates a mismatched `Return`
(so `ReturnTarget(t, Return(t, e))` yields the value of `e` while
`ReturnTarget(t, Return(t', e))` with `t' ≠ t` propagates `Return(t')`), and
re-propagates every non-`Return` failure. -/
theorem return_target_semantics (TS : TypeSystem) (fuel : Nat) (natives : Natives TS)
    (t t' : Nat) (e : Expression TS) (s : ExecutionEngine TS)
    (st cap : List TS.Value) :
    (∀ v s1 st1, evaluate TS fuel natives e s st cap = .ok v s1 st1 →
      evaluate TS (fuel + 1) natives (.Return t e) s st cap =
        .err (.Return t) { s1 with return_value := v } st1)
    ∧ (∀ v s1 st1, evaluate TS fuel natives e s st cap = .ok v s1 st1 →
      evaluate TS (fuel + 2) natives (.ReturnTarget t (.Return t e)) s st cap =
        .ok v { s1 with return_value := v } st1)
    ∧ (t' ≠ t → ∀ v s1 st1, evaluate TS fuel natives e s st cap = .ok v s1 st1 →
      evaluate TS (fuel + 2) natives (.ReturnTarget t (.Return t' e)) s st cap =
        .err (.Return t') { s1 with return_value := v } st1)
    ∧ (∀ v s1 st1, evaluate TS fuel natives e s st cap = .ok v s1 st1 →
      evaluate TS (fuel + 1) natives (.ReturnTarget t e) s st cap = .ok v s1 st1)
    ∧ (∀ s1 st1, evaluate TS fuel natives e s st cap = .err (.Return t) s1 st1 →
      evaluate TS (fuel + 1) natives (.ReturnTarget t e) s st cap =
        .ok s1.return_value s1 st1)
    ∧ (∀ e1 s1 st1, evaluate TS fuel natives e s st cap = .err e1 s1 st1 →
        (∀ t2, e1 = FreightError.Return t2 → t2 ≠ t) →
      evaluate TS (fuel + 1) natives (.ReturnTarget t e) s st cap = .err e1 s1 st1) := by
  refine ⟨fun v s1 st1 h => eval_Return_ok TS fuel natives t e s s1 st cap st1 v h,
    ?_, ?_,
    fun v s1 st1 h => eval_ReturnTarget_ok TS fuel natives t e s s1 st cap st1 v h,
    fun s1 st1 h => eval_ReturnTarget_matching TS fuel natives t e s s1 st cap st1 h,
    fun e1 s1 st1 h hne =>
      eval_ReturnTarget_other TS fuel natives t e s s1 st cap st1 e1 h hne⟩
  · intro v s1 st1 h
    exact eval_ReturnTarget_matching TS (fuel + 1) natives t (.Return t e) s
      { s1 with return_value := v } st cap st1
      (eval_Return_ok TS fuel natives t e s s1 st cap st1 v h)
  · intro hne v s1 st1 h
    exact eval_ReturnTarget_other TS (fuel + 1) natives t (.Return t' e) s
      { s1 with return_value := v } st cap st1 (.Return t')
      (eval_Return_ok TS fuel natives t' e s s1 st cap st1 v h)
      (fun t2 ht2 => by cases ht2; exact hne)

/-- Claim C2, witness: on a concrete engine, target 1 catches its own return carrying
99, while target 2's return escapes target 1; conclusions instantiated from
`return_target_semantics`. -/
theorem return_target_semantics_witness :
    (evaluate IntTS 3 trivNatives (.ReturnTarget 1 (.Return 1 (.RawValue (.int 99))))
      (mkIntEngine 0 [] [] 0 0 .uninit) [] [] =
      .ok (.int 99) { mkIntEngine 0 [] [] 0 0 .uninit with return_value := .int 99 } [])
    ∧ (evaluate IntTS 3 trivNatives (.ReturnTarget 1 (.Return 2 (.RawValue (.int 99))))
      (mkIntEngine 0 [] [] 0 0 .uninit) [] [] =
      .err (.Return 2)
        { mkIntEngine 0 [] [] 0 0 .uninit with return_value := .int 99 } []) :=
  ⟨(return_target_semantics IntTS 1 trivNatives 1 2 (.RawValue (.int 99))
      (mkIntEngine 0 [] [] 0 0 .uninit) [] []).2.1 (.int 99)
      (mkIntEngine 0 [] [] 0 0 .uninit) [] rfl,
   (return_target_semantics IntTS 1 trivNatives 1 2 (.RawValue (.int 99))
      (mkIntEngine 0 [] [] 0 0 .uninit) [] []).2.2.1 (by decide) (.int 99)
      (mkIntEngine 0 [] [] 0 0 .uninit) [] rfl⟩

/-- Claim C6: `AssignStack(i, e)` evaluates `e`, assigns the value into frame slot `i`,
and returns default-uninitialized; `AssignGlobal(i, e)` does the same against
`engine.globals[i]`; `AssignDynamic([target, value])` evaluates `target`, `dupe_ref`s
it, evaluates `value`, assigns into the duped target, and returns
default-uninitialized. -/
theorem assign_semantics (TS : TypeSystem) (fuel : Nat) (natives : Natives TS)
    (s : ExecutionEngine TS) (st cap : List TS.Value) :
    (∀ i (e : Expression TS) v s1 st1 slot,
      evaluate TS fuel natives e s st cap = .ok v s1 st1 →
      st1[i]? = some slot →
      evaluate TS (fuel + 1) natives (.AssignStack i e) s st cap =
        .ok (TS.defaultVal (TS.assignVal slot v s1.world).2).1
          { s1 with world := (TS.defaultVal (TS.assignVal slot v s1.world).2).2 }
          (st1.set i (TS.assignVal slot v s1.world).1))
    ∧ (∀ i (e : Expression TS) v s1 st1 slot,
      evaluate TS fuel natives e s st cap = .ok v s1 st1 →
      s1.globals[i]? = some slot →
      evaluate TS (fuel + 1) natives (.AssignGlobal i e) s st cap =
        .ok (TS.defaultVal (TS.assignVal slot v s1.world).2).1
          { s1 with globals := s1.globals.set i (TS.assignVal slot v s1.world).1,
                    world := (TS.defaultVal (TS.assignVal slot v s1.world).2).2 }
          st1)
    ∧ (∀ (target value : Expression TS) tv s1 st1 vv s2 st2,
      evaluate TS fuel natives target s st cap = .ok tv s1 st1 →
      evaluate TS fuel natives value { s1 with world := (TS.dupeRef tv s1.world).2 }
        st1 cap = .ok vv s2 st2 →
      evaluate TS (fuel + 1) natives (.AssignDynamic target value) s st cap =
        .ok (TS.defaultVal (TS.assignVal (TS.dupeRef tv s1.world).1 vv s2.world).2).1
          { s2 with world :=
              (TS.defaultVal (TS.assignVal (TS.dupeRef tv s1.world).1 vv s2.world).2).2 }
          st2) := by
  refine ⟨?_, ?_, ?_⟩
  · intro i e v s1 st1 slot h hslot
    simp only [evaluate, h, hslot]
  · intro i e v s1 st1 slot h hslot
    simp only [evaluate, h, hslot]
  · intro target value tv s1 st1 vv s2 st2 h1 h2
    simp only [evaluate, h1, h2]

/-- Claim C6, witness: concrete instances of all three assignment arms, instantiated
from `assign_semantics`: a stack assignment updates the frame slot, a global
assignment updates the global slot, and a dynamic assignment through a duped
direct value leaves the frame as is (the mutation lands in the duped handle). -/
theorem assign_semantics_witness :
    (evaluate IntTS 2 trivNatives (.AssignStack 0 (.RawValue (.int 5)))
      (mkIntEngine 0 [] [] 0 0 .uninit) [.uninit] [] =
      .ok .uninit (mkIntEngine 0 [] [] 0 0 .uninit) [.int 5])
    ∧ (evaluate IntTS 2 trivNatives (.AssignGlobal 0 (.RawValue (.int 6)))
      (mkIntEngine 1 [.uninit] [] 0 0 .uninit) [] [] =
      .ok .uninit { mkIntEngine 1 [.uninit] [] 0 0 .uninit with globals := [.int 6] } [])
    ∧ (evaluate IntTS 2 trivNatives
        (.AssignDynamic (.Variable (.Stack 0)) (.RawValue (.int 7)))
      (mkIntEngine 0 [] [] 0 0 .uninit) [.uninit] [] =
      .ok .uninit (mkIntEngine 0 [] [] 0 0 .uninit) [.uninit]) :=
  ⟨(assign_semantics IntTS 1 trivNatives (mkIntEngine 0 [] [] 0 0 .uninit)
      [.uninit] []).1 0 (.RawValue (.int 5)) (.int 5)
      (mkIntEngine 0 [] [] 0 0 .uninit) [.uninit] .uninit rfl rfl,
   (assign_semantics IntTS 1 trivNatives (mkIntEngine 1 [.uninit] [] 0 0 .uninit)
      [] []).2.1 0 (.RawValue (.int 6)) (.int 6)
      (mkIntEngine 1 [.uninit] [] 0 0 .uninit) [] .uninit rfl rfl,
   (assign_semantics IntTS 1 trivNatives (mkIntEngine 0 [] [] 0 0 .uninit)
      [.uninit] []).2.2 (.Variable (.Stack 0)) (.RawValue (.int 7)) .uninit
      (mkIntEngine 0 [] [] 0 0 .uninit) [.uninit] (.int 7)
      (mkIntEngine 0 [] [] 0 0 .uninit) [.uninit] rfl rfl⟩

/-- Claim C5, counterexample: evaluating `Return(0, RawValue(7))` writes 7 into
`engine.return_value`, which started out uninitialized — the expression evaluator does
use the `return_value` scratch slot, contradicting the claim that it neither reads nor
writes it. -/
theorem return_value_untouched_cex :
    (evaluate IntTS 2 trivNatives (.Return 0 (.RawValue (.int 7)))
        (mkIntEngine 0 [] [] 0 0 .uninit) [] []).returnValueOf IntTS = some (.int 7)
    ∧ (mkIntEngine 0 [] [] 0 0 .uninit).return_value = .uninit
    ∧ (IVal.int 7 ≠ IVal.uninit) :=
  ⟨rfl, rfl, fun h => IVal.noConfusion h⟩

theorem resolveTemplate_length (TS : TypeSystem) (template : List VariableType) :
    ∀ (captured stack globals : List TS.Value) (w : TS.World) slice w1,
      resolveTemplate TS template captured stack globals w = some (slice, w1) →
      slice.length = template.length := by
  induction template with
  | nil =>
    intro cap st g w slice w1 h
    simp only [resolveTemplate, Option.some.injEq, Prod.mk.injEq] at h
    rw [← h.1]
    rfl
  | cons v0 rest ih =>
    intro cap st g w slice w1 h
    simp only [resolveTemplate] at h
    split at h
    · cases h
    · next slot hslot =>
      split at h
      · cases h
      · next vs w2 hrest =>
        simp only [Option.some.injEq, Prod.mk.injEq] at h
        rw [← h.1]
        simp [ih cap st g (TS.dupeRef slot w).2 vs w2 hrest]

theorem resolveTemplate_get (TS : TypeSystem) (template : List VariableType) :
    ∀ (captured stack globals : List TS.Value) (w : TS.World) slice w1,
      resolveTemplate TS template captured stack globals w = some (slice, w1) →
      ∀ (i : Nat) (var : VariableType), template[i]? = some var →
        ∃ (wa : TS.World) (slot : TS.Value),
          varSlot TS var captured stack globals = some slot ∧
          slice[i]? = some ((TS.dupeRef slot wa).1) := by
  induction template with
  | nil => intro cap st g w slice w1 h i var hv; simp at hv
  | cons v0 rest ih =>
    intro cap st g w slice w1 h i var hv
    simp only [resolveTemplate] at h
    split at h
    · cases h
    · next slot0 hslot =>
      split at h
      · cases h
      · next vs w2 hrest =>
        simp only [Option.some.injEq, Prod.mk.injEq] at h
        obtain ⟨hs, -⟩ := h
        subst hs
        cases i with
        | zero =>
          simp only [List.getElem?_cons_zero, Option.some.injEq] at hv
          subst hv
          refine ⟨w, slot0, hslot, ?_⟩
          simp
        | succ i =>
          simp only [List.getElem?_cons_succ] at hv
          obtain ⟨wa, slot, hva, hsi⟩ :=
            ih cap st g (TS.dupeRef slot0 w).2 vs w2 hrest i var hv
          refine ⟨wa, slot, hva, ?_⟩
          rw [List.getElem?_cons_succ]
          exact hsi

theorem resolveTemplate_none_iff (TS : TypeSystem) (template : List VariableType) :
    ∀ (captured stack globals : List TS.Value) (w : TS.World),
      resolveTemplate TS template captured stack globals w = none ↔
        ∃ var ∈ template, varSlot TS var captured stack globals = none := by
  induction template with
  | nil => intro cap st g w; simp [resolveTemplate]
  | cons v0 rest ih =>
    intro cap st g w
    simp only [resolveTemplate]
    split
    · next hslot =>
      constructor
      · intro _; exact ⟨v0, List.mem_cons_self v0 rest, hslot⟩
      · intro _; rfl
    · next slot hslot =>
      constructor
      · intro h
        split at h
        · next hrest =>
          obtain ⟨var, hmem, hv⟩ := (ih cap st g (TS.dupeRef slot w).2).mp hrest
          exact ⟨var, List.mem_cons_of_mem v0 hmem, hv⟩
        · cases h
      · intro hex
        obtain ⟨var, hmem, hv⟩ := hex
        rcases List.mem_cons.mp hmem with rfl | hmem2
        · rw [hslot] at hv; cases hv
        · rw [(ih cap st g (TS.dupeRef slot w).2).mpr ⟨var, hmem2, hv⟩]

/-- Claim C8: evaluating `FunctionCapture` on a `CapturingDef(template)` handle yields
a value embedding a FunctionRef with the same location, arg_count, stack_size and
variable_count, whose function type is `CapturingRef` of the resolved slice; the slice
has one entry per template entry, and its i-th entry is the `dupe_ref` of the slot
named by `template[i]` (captures for Captured, frame for Stack, globals for Global);
the engine state is changed only in its value world — globals, function table and
return slot are untouched. -/
theorem function_capture_semantics (TS : TypeSystem) (fuel : Nat) (natives : Natives TS)
    (f : FunctionRef TS.Value) (template : List VariableType)
    (s : ExecutionEngine TS) (st cap : List TS.Value)
    (slice : List TS.Value) (w1 : TS.World)
    (hd : f.function_type = .CapturingDef template)
    (hres : resolveTemplate TS template cap st s.globals s.world = some (slice, w1)) :
    evaluate TS (fuel + 1) natives (.FunctionCapture f) s st cap =
      .ok (TS.ofFunction
            { location := f.location, arg_count := f.arg_count,
              stack_size := f.stack_size, variable_count := f.variable_count,
              function_type := .CapturingRef slice } w1).1
        { s with world := (TS.ofFunction
            { location := f.location, arg_count := f.arg_count,
              stack_size := f.stack_size, variable_count := f.variable_count,
              function_type := .CapturingRef slice } w1).2 } st
    ∧ slice.length = template.length
    ∧ (∀ (i : Nat) (var : VariableType), template[i]? = some var →
        ∃ (wa : TS.World) (slot : TS.Value),
          varSlot TS var cap st s.globals = some slot ∧
          slice[i]? = some ((TS.dupeRef slot wa).1)) := by
  refine ⟨?_, resolveTemplate_length TS template cap st s.globals s.world slice w1 hres,
    resolveTemplate_get TS template cap st s.globals s.world slice w1 hres⟩
  obtain ⟨loc, ac, ssz, vc, ft⟩ := f
  simp only at hd
  subst hd
  simp only [evaluate, hres]

/-- Claim C8, witness: capturing over a concrete frame, globals and capture slice
realizes the slice `[frame[0], globals[1], captured[0]]` and embeds the new handle as
a value, instantiated from `function_capture_semantics`. -/
theorem function_capture_semantics_witness :
    evaluate IntTS 5 trivNatives (.FunctionCapture capDefRef)
      (mkIntEngine 2 [.uninit, .int 9] [] 0 0 .uninit) [.int 7] [.int 3] =
      .ok (.fn { location := 3, arg_count := .Fixed 0, stack_size := 1,
                 variable_count := 0,
                 function_type := .CapturingRef [.int 7, .int 9, .int 3] })
        (mkIntEngine 2 [.uninit, .int 9] [] 0 0 .uninit) [.int 7] :=
  (function_capture_semantics IntTS 4 trivNatives capDefRef
    [.Stack 0, .Global 1, .Captured 0]
    (mkIntEngine 2 [.uninit, .int 9] [] 0 0 .uninit) [.int 7] [.int 3]
    [.int 7, .int 9, .int 3] () rfl rfl).1

/-- Claim C10: variable and assignment indexing is unchecked: an out-of-bounds index
in `Variable`, `AssignStack`, `AssignGlobal` or a capture-template entry makes the
evaluation a Rust panic (the `panicOOB` branch of the total embedding), never a
`FreightError` result; under the in-bounds precondition the panic branch is not taken
and the arm produces its ordinary result. -/
theorem unchecked_indexing (TS : TypeSystem) (fuel : Nat) (natives : Natives TS)
    (s : ExecutionEngine TS) (st cap : List TS.Value) :
    (∀ var, varSlot TS var cap st s.globals = none →
      evaluate TS (fuel + 1) natives (.Variable var) s st cap = .panicOOB)
    ∧ (∀ var slot, varSlot TS var cap st s.globals = some slot →
      evaluate TS (fuel + 1) natives (.Variable var) s st cap =
        .ok (TS.dupeRef slot s.world).1 { s with world := (TS.dupeRef slot s.world).2 } st)
    ∧ (∀ i (e : Expression TS) v s1 st1,
        evaluate TS fuel natives e s st cap = .ok v s1 st1 → st1[i]? = none →
        evaluate TS (fuel + 1) natives (.AssignStack i e) s st cap = .panicOOB)
    ∧ (∀ i (e : Expression TS) v s1 st1,
        evaluate TS fuel natives e s st cap = .ok v s1 st1 → s1.globals[i]? = none →
        evaluate TS (fuel + 1) natives (.AssignGlobal i e) s st cap = .panicOOB)
    ∧ (∀ template (f : FunctionRef TS.Value),
        f.function_type = FunctionType.CapturingDef template →
        resolveTemplate TS template cap st s.globals s.world = none →
        evaluate TS (fuel + 1) natives (.FunctionCapture f) s st cap = .panicOOB)
    ∧ (∀ template (w : TS.World),
        resolveTemplate TS template cap st s.globals w = none ↔
          ∃ var ∈ template, varSlot TS var cap st s.globals = none) := by
  refine ⟨?_, ?_, ?_, ?_, ?_,
    fun template w => resolveTemplate_none_iff TS template cap st s.globals w⟩
  · intro var h
    simp only [evaluate, h]
  · intro var slot h
    simp only [evaluate, h]
  · intro i e v s1 st1 h hnone
    simp only [evaluate, h, hnone]
  · intro i e v s1 st1 h hnone
    simp only [evaluate, h, hnone]
  · intro template f hd hres
    obtain ⟨loc, ac, ssz, vc, ft⟩ := f
    simp only at hd
    subst hd
    simp only [evaluate, hres]

/-- Claim C10, witness: concrete out-of-bounds and in-bounds instances of every part,
instantiated from `unchecked_indexing`. -/
theorem unchecked_indexing_witness :
    (evaluate IntTS 3 trivNatives (.Variable (.Stack 5))
      (mkIntEngine 0 [] [] 0 0 .uninit) [.uninit] [] = .panicOOB)
    ∧ (evaluate IntTS 3 trivNatives (.Variable (.Stack 0))
      (mkIntEngine 0 [] [] 0 0 .uninit) [.int 8] [] =
        .ok (.int 8) (mkIntEngine 0 [] [] 0 0 .uninit) [.int 8])
    ∧ (evaluate IntTS 3 trivNatives (.AssignStack 3 (.RawValue (.int 1)))
      (mkIntEngine 0 [] [] 0 0 .uninit) [] [] = .panicOOB)
    ∧ (evaluate IntTS 3 trivNatives (.AssignGlobal 3 (.RawValue (.int 1)))
      (mkIntEngine 0 [] [] 0 0 .uninit) [] [] = .panicOOB)
    ∧ (evaluate IntTS 3 trivNatives (.FunctionCapture capDefRef)
      (mkIntEngine 0 [] [] 0 0 .uninit) [] [] = .panicOOB)
    ∧ (resolveTemplate IntTS [.Stack 0] [] [] [] () = none) :=
  ⟨(unchecked_indexing IntTS 2 trivNatives (mkIntEngine 0 [] [] 0 0 .uninit)
      [.uninit] []).1 (.Stack 5) rfl,
   (unchecked_indexing IntTS 2 trivNatives (mkIntEngine 0 [] [] 0 0 .uninit)
      [.int 8] []).2.1 (.Stack 0) (.int 8) rfl,
   (unchecked_indexing IntTS 2 trivNatives (mkIntEngine 0 [] [] 0 0 .uninit)
      [] []).2.2.1 3 (.RawValue (.int 1)) (.int 1)
      (mkIntEngine 0 [] [] 0 0 .uninit) [] rfl rfl,
   (unchecked_indexing IntTS 2 trivNatives (mkIntEngine 0 [] [] 0 0 .uninit)
      [] []).2.2.2.1 3 (.RawValue (.int 1)) (.int 1)
      (mkIntEngine 0 [] [] 0 0 .uninit) [] rfl rfl,
   (unchecked_indexing IntTS 2 trivNatives (mkIntEngine 0 [] [] 0 0 .uninit)
      [] []).2.2.2.2.1 [.Stack 0, .Global 1, .Captured 0] capDefRef rfl rfl,
   ((unchecked_indexing IntTS 2 trivNatives (mkIntEngine 0 [] [] 0 0 .uninit)
      [] []).2.2.2.2.2 [.Stack 0] ()).mpr ⟨.Stack 0, by simp, rfl⟩⟩

theorem mem_of_lookup {α : Type _} {l : List α} {i : Nat} {a : α}
    (h : l[i]? = some a) : a ∈ l := by
  obtain ⟨hlt, rfl⟩ := List.getElem?_eq_some_iff.mp h
  exact List.getElem_mem hlt

theorem eval_invariant (TS : TypeSystem) (natives : Natives TS) (C : EvalCond TS natives) :
    ∀ fuel : Nat,
    (∀ (e : Expression TS) s st cap, C.EP e → C.SP s →
      EvalResult.Preserves TS C.SP C.EE (evaluate TS fuel natives e s st cap))
    ∧ (∀ post args s st cap acc, (∀ a ∈ args, C.EP a) → C.SP s →
      ArgsResult.Preserves TS C.SP C.EE
        (evalArgsWith TS fuel natives post args s st cap acc))
    ∧ (∀ f args s, C.SP s →
      CallResult.Preserves TS C.SP C.EE (ExecutionEngine.call TS fuel natives f args s))
    ∧ (∀ fn st cap s, (∀ e ∈ Function.expressions fn, C.EP e) → C.SP s →
      CallResult.Preserves TS C.SP C.EE (Function.call TS fuel natives fn st cap s))
    ∧ (∀ exprs s st cap ret, (∀ e ∈ exprs, C.EP e) → C.SP s →
      CallResult.Preserves TS C.SP C.EE (runBody TS fuel natives exprs s st cap ret)) := by
  intro fuel
  induction fuel with
  | zero =>
    exact ⟨fun _ _ _ _ _ _ => trivial, fun _ _ _ _ _ _ _ _ => trivial,
      fun _ _ _ _ => trivial, fun _ _ _ _ _ _ => trivial, fun _ _ _ _ _ _ _ => trivial⟩
  | succ fuel ih =>
    obtain ⟨ihE, ihA, ihC, ihF, ihB⟩ := ih
    refine ⟨?_, ?_, ?_, ?_, ?_⟩
    · intro e s st cap hEP hSP
      cases e with
      | RawValue v =>
        simp only [evaluate, EvalResult.Preserves]
        exact C.sp_world s _ hSP
      | Variable var =>
        simp only [evaluate]
        cases hv : varSlot TS var cap st s.globals with
        | none => trivial
        | some slot =>
          simp only [EvalResult.Preserves]
          exact C.sp_world s _ hSP
      | BinaryOpEval op l r =>
        obtain ⟨hl, hr⟩ := C.ep_bin op l r hEP
        simp only [evaluate]
        have Hl := ihE l s st cap hl hSP
        cases h1 : evaluate TS fuel natives l s st cap with
        | ok v1 s1 st1 =>
          rw [h1] at Hl
          simp only [EvalResult.Preserves] at Hl
          dsimp only
          have Hr := ihE r s1 st1 cap hr Hl
          cases h2 : evaluate TS fuel natives r s1 st1 cap with
          | ok v2 s2 st2 =>
            rw [h2] at Hr
            simp only [EvalResult.Preserves] at Hr
            dsimp only
            simp only [EvalResult.Preserves]
            exact C.sp_world s2 _ Hr
          | err e2 s2 st2 =>
            rw [h2] at Hr
            exact Hr
          | panicOOB => trivial
          | outOfFuel => trivial
        | err e1 s1 st1 =>
          rw [h1] at Hl
          exact Hl
        | panicOOB => trivial
        | outOfFuel => trivial
      | UnaryOpEval op x =>
        have hx := C.ep_un op x hEP
        simp only [evaluate]
        have Hx := ihE x s st cap hx hSP
        cases h1 : evaluate TS fuel natives x s st cap with
        | ok v1 s1 st1 =>
          rw [h1] at Hx
          simp only [EvalResult.Preserves] at Hx
          dsimp only
          simp only [EvalResult.Preserves]
          exact C.sp_world s1 _ Hx
        | err e1 s1 st1 => rw [h1] at Hx; exact Hx
        | panicOOB => trivial
        | outOfFuel => trivial
      | StaticFunctionCall f args =>
        have hargs := C.ep_static f args hEP
        simp only [evaluate]
        have HA := ihA (fun v w => (TS.intoRef (TS.cloneVal v w).1 (TS.cloneVal v w).2))
          args s st cap [] hargs hSP
        cases hA : evalArgsWith TS fuel natives
            (fun v w => (TS.intoRef (TS.cloneVal v w).1 (TS.cloneVal v w).2))
            args s st cap [] with
        | ok collected s1 st1 =>
          rw [hA] at HA
          simp only [ArgsResult.Preserves] at HA
          dsimp only
          have HC := ihC f collected s1 HA
          cases hC : ExecutionEngine.call TS fuel natives f collected s1 with
          | ok v2 s2 =>
            rw [hC] at HC
            exact HC
          | err e2 s2 =>
            rw [hC] at HC
            exact HC
          | panicOOB => trivial
          | outOfFuel => trivial
        | err e1 s1 st1 => rw [hA] at HA; exact HA
        | panicOOB => trivial
        | outOfFuel => trivial
      | DynamicFunctionCall fe args =>
        obtain ⟨hfe, hargs⟩ := C.ep_dyn fe args hEP
        simp only [evaluate]
        have Hf := ihE fe s st cap hfe hSP
        cases h1 : evaluate TS fuel natives fe s st cap with
        | ok fv s1 st1 =>
          rw [h1] at Hf
          simp only [EvalResult.Preserves] at Hf
          dsimp only
          cases hcast : TS.castToFunction fv s1.world with
          | none =>
            dsimp only
            simp only [EvalResult.Preserves]
            exact ⟨Hf, C.ee_inv_dyn fe args hEP⟩
          | some f =>
            dsimp only
            have HA := ihA (fun v w => (TS.intoRef (TS.cloneVal v w).1 (TS.cloneVal v w).2))
              args s1 st1 cap [] hargs Hf
            cases hA : evalArgsWith TS fuel natives
                (fun v w => (TS.intoRef (TS.cloneVal v w).1 (TS.cloneVal v w).2))
                args s1 st1 cap [] with
            | ok collected s2 st2 =>
              rw [hA] at HA
              simp only [ArgsResult.Preserves] at HA
              dsimp only
              have HC := ihC f collected s2 HA
              cases hC : ExecutionEngine.call TS fuel natives f collected s2 with
              | ok v3 s3 => rw [hC] at HC; exact HC
              | err e3 s3 => rw [hC] at HC; exact HC
              | panicOOB => trivial
              | outOfFuel => trivial
            | err e2 s2 st2 => rw [hA] at HA; exact HA
            | panicOOB => trivial
            | outOfFuel => trivial
        | err e1 s1 st1 => rw [h1] at Hf; exact Hf
        | panicOOB => trivial
        | outOfFuel => trivial
      | FunctionCapture f =>
        simp only [evaluate]
        cases hft : f.function_type with
        | CapturingDef template =>
          dsimp only
          cases hres : resolveTemplate TS template cap st s.globals s.world with
          | none => trivial
          | some p =>
            obtain ⟨slice, w1⟩ := p
            dsimp only
            simp only [EvalResult.Preserves]
            exact C.sp_world s _ hSP
        | Static =>
          dsimp only
          simp only [EvalResult.Preserves]
          exact ⟨hSP, C.ee_inv_cap f hEP⟩
        | CapturingRef captures =>
          dsimp only
          simp only [EvalResult.Preserves]
          exact ⟨hSP, C.ee_inv_cap f hEP⟩
      | AssignStack addr e =>
        have he := C.ep_assign_stack addr e hEP
        simp only [evaluate]
        have H := ihE e s st cap he hSP
        cases h1 : evaluate TS fuel natives e s st cap with
        | ok v s1 st1 =>
          rw [h1] at H
          simp only [EvalResult.Preserves] at H
          dsimp only
          cases hslot : st1[addr]? with
          | none => trivial
          | some slot =>
            dsimp only
            simp only [EvalResult.Preserves]
            exact C.sp_world s1 _ H
        | err e1 s1 st1 => rw [h1] at H; exact H
        | panicOOB => trivial
        | outOfFuel => trivial
      | AssignGlobal addr e =>
        have he := C.ep_assign_global addr e hEP
        simp only [evaluate]
        have H := ihE e s st cap he hSP
        cases h1 : evaluate TS fuel natives e s st cap with
        | ok v s1 st1 =>
          rw [h1] at H
          simp only [EvalResult.Preserves] at H
          dsimp only
          cases hslot : s1.globals[addr]? with
          | none => trivial
          | some slot =>
            dsimp only
            simp only [EvalResult.Preserves]
            exact C.sp_set_global s1 addr _ _ H
        | err e1 s1 st1 => rw [h1] at H; exact H
        | panicOOB => trivial
        | outOfFuel => trivial
      | AssignDynamic target value =>
        obtain ⟨ht, hv⟩ := C.ep_assign_dyn target value hEP
        simp only [evaluate]
        have H1 := ihE target s st cap ht hSP
        cases h1 : evaluate TS fuel natives target s st cap with
        | ok tv s1 st1 =>
          rw [h1] at H1
          simp only [EvalResult.Preserves] at H1
          dsimp only
          have H2 := ihE value { s1 with world := (TS.dupeRef tv s1.world).2 } st1 cap hv
            (C.sp_world s1 _ H1)
          cases h2 : evaluate TS fuel natives value
              { s1 with world := (TS.dupeRef tv s1.world).2 } st1 cap with
          | ok vv s2 st2 =>
            rw [h2] at H2
            simp only [EvalResult.Preserves] at H2
            dsimp only
            simp only [EvalResult.Preserves]
            exact C.sp_world s2 _ H2
          | err e2 s2 st2 => rw [h2] at H2; exact H2
          | panicOOB => trivial
          | outOfFuel => trivial
        | err e1 s1 st1 => rw [h1] at H1; exact H1
        | panicOOB => trivial
        | outOfFuel => trivial
      | NativeFunctionCall func args =>
        have hargs := C.ep_native func args hEP
        simp only [evaluate]
        have HA := ihA (fun v w => TS.cloneVal v w) args s st cap [] hargs hSP
        cases hA : evalArgsWith TS fuel natives (fun v w => TS.cloneVal v w)
            args s st cap [] with
        | ok collected s1 st1 =>
          rw [hA] at HA
          simp only [ArgsResult.Preserves] at HA
          dsimp only
          have HN := C.natives_ok func s1 collected HA
          cases hN : natives func s1 collected with
          | mk r s2 =>
            rw [hN] at HN
            cases r with
            | ok v => exact HN.1
            | error e2 => exact ⟨HN.1, HN.2 e2 rfl⟩
        | err e1 s1 st1 => rw [hA] at HA; exact HA
        | panicOOB => trivial
        | outOfFuel => trivial
      | Initialize ini args =>
        have hargs := C.ep_init ini args hEP
        simp only [evaluate]
        have HA := ihA (fun v w => (v, w)) args s st cap [] hargs hSP
        cases hA : evalArgsWith TS fuel natives (fun v w => (v, w)) args s st cap [] with
        | ok collected s1 st1 =>
          rw [hA] at HA
          simp only [ArgsResult.Preserves] at HA
          dsimp only
          simp only [EvalResult.Preserves]
          exact C.sp_world s1 _ HA
        | err e1 s1 st1 => rw [hA] at HA; exact HA
        | panicOOB => trivial
        | outOfFuel => trivial
      | ReturnTarget target e =>
        have he := C.ep_rt target e hEP
        simp only [evaluate]
        have H := ihE e s st cap he hSP
        cases h1 : evaluate TS fuel natives e s st cap with
        | ok v s1 st1 => rw [h1] at H; exact H
        | err e1 s1 st1 =>
          rw [h1] at H
          simp only [EvalResult.Preserves] at H
          cases e1 with
          | Return t1 =>
            dsimp only
            by_cases heq : t1 = target
            · rw [if_pos heq]
              exact H.1
            · rw [if_neg heq]
              exact H
          | IncorrectArgumentCount a b c => exact H
          | InvalidInvocationTarget => exact H
          | HostError => exact H
        | panicOOB => trivial
        | outOfFuel => trivial
      | Return target e =>
        have he := C.ep_ret target e hEP
        simp only [evaluate]
        have H := ihE e s st cap he hSP
        cases h1 : evaluate TS fuel natives e s st cap with
        | ok v s1 st1 =>
          rw [h1] at H
          simp only [EvalResult.Preserves] at H
          dsimp only
          simp only [EvalResult.Preserves]
          exact ⟨C.sp_ret target e hEP s1 v H, C.ee_ret target e hEP⟩
        | err e1 s1 st1 => rw [h1] at H; exact H
        | panicOOB => trivial
        | outOfFuel => trivial
    · intro post args s st cap acc hEP hSP
      cases args with
      | nil =>
        simp only [evalArgsWith, ArgsResult.Preserves]
        exact hSP
      | cons a rest =>
        simp only [evalArgsWith]
        have H := ihE a s st cap (hEP a (List.mem_cons_self a rest)) hSP
        cases h1 : evaluate TS fuel natives a s st cap with
        | ok v s1 st1 =>
          rw [h1] at H
          simp only [EvalResult.Preserves] at H
          dsimp only
          exact ihA post rest { s1 with world := (post v s1.world).2 } st1 cap
            (acc ++ [(post v s1.world).1])
            (fun x hx => hEP x (List.mem_cons_of_mem a hx)) (C.sp_world s1 _ H)
        | err e1 s1 st1 => rw [h1] at H; exact H
        | panicOOB => trivial
        | outOfFuel => trivial
    · intro f args s hSP
      simp only [ExecutionEngine.call]
      cases hvb : f.arg_count.valid_arg_count args.length with
      | false =>
        simp only [hvb, Bool.not_false, if_true, CallResult.Preserves]
        exact ⟨hSP, C.ee_argcount _ _ _⟩
      | true =>
        simp only [hvb, Bool.not_true, Bool.false_eq_true, if_false]
        cases hfn : s.functions[f.location]? with
        | none => trivial
        | some fn =>
          have hfnEP := C.sp_table s hSP fn (mem_of_lookup hfn)
          cases hft : f.function_type with
          | Static => exact ihF fn _ _ _ hfnEP (C.sp_world s _ hSP)
          | CapturingDef template => exact ihF fn _ _ _ hfnEP (C.sp_world s _ hSP)
          | CapturingRef captures => exact ihF fn _ _ _ hfnEP (C.sp_world s _ hSP)
    · intro fn st cap s hEP hSP
      simp only [Function.call]
      exact ihB fn.expressions { s with world := (TS.defaultVal s.world).2 } st cap
        (TS.defaultVal s.world).1 hEP (C.sp_world s _ hSP)
    · intro exprs s st cap ret hEP hSP
      cases exprs with
      | nil =>
        simp only [runBody, CallResult.Preserves]
        exact hSP
      | cons e rest =>
        simp only [runBody]
        have H := ihE e s st cap (hEP e (List.mem_cons_self e rest)) hSP
        cases h1 : evaluate TS fuel natives e s st cap with
        | ok v s1 st1 =>
          rw [h1] at H
          simp only [EvalResult.Preserves] at H
          dsimp only
          exact ihB rest s1 st1 cap v (fun x hx => hEP x (List.mem_cons_of_mem e hx)) H
        | err e1 s1 st1 =>
          rw [h1] at H
          exact H
        | panicOOB => trivial
        | outOfFuel => trivial

theorem cloneReplicate_length (TS : TypeSystem) (v : TS.Value) :
    ∀ (n : Nat) (w : TS.World), (cloneReplicate TS v n w).1.length = n := by
  intro n
  induction n with
  | zero => intro w; rfl
  | succ n ih =>
    intro w
    simp only [cloneReplicate, List.length_cons]
    rw [ih]

theorem mkUninitVec_length (TS : TypeSystem) (n : Nat) (w : TS.World) :
    (mkUninitVec TS n w).1.length = n := by
  cases n with
  | zero => rfl
  | succ n =>
    simp only [mkUninitVec, List.length_cons]
    rw [cloneReplicate_length]

theorem allSubList_forall (TS : TypeSystem) (P : Expression TS → Bool) :
    ∀ es, Expression.allSubList TS P es = true → ∀ e ∈ es, Expression.allSub TS P e = true := by
  intro es
  induction es with
  | nil => intro _ e he; exact absurd he (List.not_mem_nil e)
  | cons a rest ih =>
    intro h e he
    simp only [Expression.allSubList, Bool.and_eq_true] at h
    rcases List.mem_cons.mp he with rfl | hm
    · exact h.1
    · exact ih h.2 e hm

/-- Claim C4, counterexample: `create_global` grows the globals sequence to length 1,
but a subsequent `run` re-initializes it to `num_globals = 0` slots — the length of
`engine.globals` decreased across a sequence of public operations, so the sequence is
not monotone. -/
theorem globals_monotone_cex :
    ((ExecutionEngine.create_global IntTS
        (mkIntEngine 0 [] [entryConst] 0 0 .uninit)).2.globals.length = 1)
    ∧ (((ExecutionEngine.run IntTS 5 trivNatives
        (ExecutionEngine.create_global IntTS
          (mkIntEngine 0 [] [entryConst] 0 0 .uninit)).2).stateOf IntTS).map
          (fun s => s.globals.length) = some 0) :=
  ⟨rfl, rfl⟩

/-- Claim C4 (amended): `create_global` appends exactly one default-uninitialized slot
and returns its index (the previous length); `register_function` leaves globals
untouched; `call` and `evaluate` never shrink the globals sequence provided native
functions never shrink it; `run`, however, discards the current globals and
re-initializes them to exactly `num_globals` default-uninitialized slots (which can
shrink the sequence when `create_global` had grown it past `num_globals`), after which
the invocation again never drops below `num_globals`. -/
theorem globals_monotone_amended (TS : TypeSystem) (natives : Natives TS)
    (hN : ∀ id (s : ExecutionEngine TS) args,
      s.globals.length ≤ ((natives id s args).2).globals.length) :
    (∀ s : ExecutionEngine TS,
      (ExecutionEngine.create_global TS s).1 = s.globals.length
      ∧ (ExecutionEngine.create_global TS s).2.globals
          = s.globals ++ [(TS.uninitRef s.world).1])
    ∧ (∀ s fw rt, (ExecutionEngine.register_function TS s fw rt).2.globals = s.globals)
    ∧ (∀ fuel f args (s : ExecutionEngine TS),
        CallResult.Preserves TS (fun s2 => s.globals.length ≤ s2.globals.length)
          (fun _ => True) (ExecutionEngine.call TS fuel natives f args s))
    ∧ (∀ fuel e (s : ExecutionEngine TS) st cap,
        EvalResult.Preserves TS (fun s2 => s.globals.length ≤ s2.globals.length)
          (fun _ => True) (evaluate TS fuel natives e s st cap))
    ∧ (∀ n w, (mkUninitVec TS n w).1.length = n)
    ∧ (∀ fuel (s : ExecutionEngine TS),
        CallResult.Preserves TS (fun s2 => s.num_globals ≤ s2.globals.length)
          (fun _ => True) (ExecutionEngine.run TS fuel natives s)) := by
  have master : ∀ n : Nat, ∀ fuel : Nat,
      (∀ (e : Expression TS) s st cap, True → n ≤ s.globals.length →
        EvalResult.Preserves TS (fun s2 => n ≤ s2.globals.length) (fun _ => True)
          (evaluate TS fuel natives e s st cap))
      ∧ (∀ post args s st cap acc, (∀ a ∈ args, True) → n ≤ s.globals.length →
        ArgsResult.Preserves TS (fun s2 => n ≤ s2.globals.length) (fun _ => True)
          (evalArgsWith TS fuel natives post args s st cap acc))
      ∧ (∀ f args s, n ≤ s.globals.length →
        CallResult.Preserves TS (fun s2 => n ≤ s2.globals.length) (fun _ => True)
          (ExecutionEngine.call TS fuel natives f args s))
      ∧ (∀ fn st cap s, (∀ e ∈ Function.expressions fn, True) → n ≤ s.globals.length →
        CallResult.Preserves TS (fun s2 => n ≤ s2.globals.length) (fun _ => True)
          (Function.call TS fuel natives fn st cap s))
      ∧ (∀ exprs s st cap ret, (∀ e ∈ exprs, True) → n ≤ s.globals.length →
        CallResult.Preserves TS (fun s2 => n ≤ s2.globals.length) (fun _ => True)
          (runBody TS fuel natives exprs s st cap ret)) := by
    intro n
    exact eval_invariant TS natives
      { SP := fun s2 => n ≤ s2.globals.length
        EP := fun _ => True
        EE := fun _ => True
        sp_world := fun s w h => h
        sp_set_global := fun s i v w h => by
          simp only [List.length_set]
          exact h
        sp_ret := fun t e _ s v h => h
        sp_table := fun s _ fn _ e _ => trivial
        ee_argcount := fun _ _ _ => trivial
        ee_ret := fun _ _ _ => trivial
        ee_inv_dyn := fun _ _ _ => trivial
        ee_inv_cap := fun _ _ => trivial
        natives_ok := fun id s args h => ⟨h.trans (hN id s args), fun _ _ => trivial⟩
        ep_bin := fun _ _ _ _ => ⟨trivial, trivial⟩
        ep_un := fun _ _ _ => trivial
        ep_static := fun _ _ _ _ _ => trivial
        ep_dyn := fun _ _ _ => ⟨trivial, fun _ _ => trivial⟩
        ep_assign_stack := fun _ _ _ => trivial
        ep_assign_global := fun _ _ _ => trivial
        ep_assign_dyn := fun _ _ _ => ⟨trivial, trivial⟩
        ep_native := fun _ _ _ _ _ => trivial
        ep_init := fun _ _ _ _ _ => trivial
        ep_rt := fun _ _ _ => trivial
        ep_ret := fun _ _ _ => trivial }
  refine ⟨?_, ?_, ?_, ?_, fun n w => mkUninitVec_length TS n w, ?_⟩
  · intro s
    constructor
    · simp [ExecutionEngine.create_global]
    · rfl
  · intro s fw rt
    rfl
  · intro fuel f args s
    exact (master s.globals.length fuel).2.2.1 f args s (Nat.le_refl _)
  · intro fuel e s st cap
    exact (master s.globals.length fuel).1 e s st cap trivial (Nat.le_refl _)
  · intro fuel s
    simp only [ExecutionEngine.run]
    cases hmain : (mkUninitVec TS s.num_globals s.world).1 with
    | nil =>
      cases hfn : s.functions[s.entry_point]? with
      | none => trivial
      | some main =>
        refine (master s.num_globals fuel).2.2.2.1 main _ [] _ (fun _ _ => trivial) ?_
        simp only [← hmain, mkUninitVec_length TS s.num_globals s.world]
        exact Nat.le_refl _
    | cons g rest =>
      cases hfn : s.functions[s.entry_point]? with
      | none => trivial
      | some main =>
        refine (master s.num_globals fuel).2.2.2.1 main _ [] _ (fun _ _ => trivial) ?_
        simp only [← hmain, mkUninitVec_length TS s.num_globals s.world]
        exact Nat.le_refl _

/-- Claim C4, witness: on the concrete integer engine with no-op natives,
`create_global` on an empty globals sequence returns index 0 and appends one slot, and
a concrete wrong-arity call preserves the globals length; both instantiated from
`globals_monotone_amended` with the native-monotonicity hypothesis discharged. -/
theorem globals_monotone_witness :
    ((ExecutionEngine.create_global IntTS (mkIntEngine 0 [] [] 0 0 .uninit)).1 = 0
      ∧ (ExecutionEngine.create_global IntTS (mkIntEngine 0 [] [] 0 0 .uninit)).2.globals
        = [] ++ [(IntTS.uninitRef ()).1])
    ∧ CallResult.Preserves IntTS
        (fun s2 => (mkIntEngine 0 [] [] 0 0 .uninit).globals.length ≤ s2.globals.length)
        (fun _ => True)
        (ExecutionEngine.call IntTS 5 trivNatives addTwoRef []
          (mkIntEngine 0 [] [] 0 0 .uninit)) :=
  ⟨(globals_monotone_amended IntTS trivNatives (fun _ s _ => Nat.le_refl _)).1
      (mkIntEngine 0 [] [] 0 0 .uninit),
   (globals_monotone_amended IntTS trivNatives (fun _ s _ => Nat.le_refl _)).2.2.1
      5 addTwoRef [] (mkIntEngine 0 [] [] 0 0 .uninit)⟩

/-- Claim C5 (amended): the expression evaluator does use `engine.return_value`, but
only as the transport for non-local returns: `Return(t, e)` writes the value of `e`
into it before raising the `Return` signal, and a matching `ReturnTarget` reads it
back as its result; evaluation of an expression containing no `Return` arm, over a
function table whose bodies contain no `Return` arm and natives that preserve the
slot, leaves `return_value` unchanged. -/
theorem return_value_usage_amended (TS : TypeSystem) (natives : Natives TS)
    (hN : ∀ id (s : ExecutionEngine TS) args, RetFreeState TS s →
      ((natives id s args).2.return_value = s.return_value
        ∧ RetFreeState TS (natives id s args).2)) :
    (∀ fuel t (e : Expression TS) s st cap v s1 st1,
      evaluate TS fuel natives e s st cap = .ok v s1 st1 →
      evaluate TS (fuel + 1) natives (.Return t e) s st cap =
        .err (.Return t) { s1 with return_value := v } st1)
    ∧ (∀ fuel t (e : Expression TS) s st cap s1 st1,
      evaluate TS fuel natives e s st cap = .err (.Return t) s1 st1 →
      evaluate TS (fuel + 1) natives (.ReturnTarget t e) s st cap =
        .ok s1.return_value s1 st1)
    ∧ (∀ fuel (e : Expression TS) s st cap,
        Expression.allSub TS (notReturnArm TS) e = true → RetFreeState TS s →
        EvalResult.Preserves TS
          (fun s2 => s2.return_value = s.return_value ∧ RetFreeState TS s2)
          (fun _ => True) (evaluate TS fuel natives e s st cap)) := by
  have master : ∀ rv : TS.Value, ∀ fuel : Nat,
      (∀ (e : Expression TS) s st cap,
        Expression.allSub TS (notReturnArm TS) e = true →
        (s.return_value = rv ∧ RetFreeState TS s) →
        EvalResult.Preserves TS (fun s2 => s2.return_value = rv ∧ RetFreeState TS s2)
          (fun _ => True) (evaluate TS fuel natives e s st cap))
      ∧ (∀ post args s st cap acc,
        (∀ a ∈ args, Expression.allSub TS (notReturnArm TS) a = true) →
        (s.return_value = rv ∧ RetFreeState TS s) →
        ArgsResult.Preserves TS (fun s2 => s2.return_value = rv ∧ RetFreeState TS s2)
          (fun _ => True) (evalArgsWith TS fuel natives post args s st cap acc))
      ∧ (∀ f args s, (s.return_value = rv ∧ RetFreeState TS s) →
        CallResult.Preserves TS (fun s2 => s2.return_value = rv ∧ RetFreeState TS s2)
          (fun _ => True) (ExecutionEngine.call TS fuel natives f args s))
      ∧ (∀ fn st cap s,
        (∀ e ∈ Function.expressions fn, Expression.allSub TS (notReturnArm TS) e = true) →
        (s.return_value = rv ∧ RetFreeState TS s) →
        CallResult.Preserves TS (fun s2 => s2.return_value = rv ∧ RetFreeState TS s2)
          (fun _ => True) (Function.call TS fuel natives fn st cap s))
      ∧ (∀ exprs s st cap ret,
        (∀ e ∈ exprs, Expression.allSub TS (notReturnArm TS) e = true) →
        (s.return_value = rv ∧ RetFreeState TS s) →
        CallResult.Preserves TS (fun s2 => s2.return_value = rv ∧ RetFreeState TS s2)
          (fun _ => True) (runBody TS fuel natives exprs s st cap ret)) := by
    intro rv
    exact eval_invariant TS natives
      { SP := fun s2 => s2.return_value = rv ∧ RetFreeState TS s2
        EP := fun e => Expression.allSub TS (notReturnArm TS) e = true
        EE := fun _ => True
        sp_world := fun s2 w h => h
        sp_set_global := fun s2 i v w h => h
        sp_ret := fun t e hEP => by
          simp [Expression.allSub, notReturnArm] at hEP
        sp_table := fun s2 h fn hm e he => h.2 fn hm e he
        ee_argcount := fun _ _ _ => trivial
        ee_ret := fun _ _ _ => trivial
        ee_inv_dyn := fun _ _ _ => trivial
        ee_inv_cap := fun _ _ => trivial
        natives_ok := fun id s2 args h =>
          ⟨⟨((hN id s2 args h.2).1).trans h.1, (hN id s2 args h.2).2⟩,
            fun _ _ => trivial⟩
        ep_bin := fun op l r hEP => by
          simp only [Expression.allSub, notReturnArm, Bool.and_eq_true,
            Bool.true_and] at hEP
          exact hEP
        ep_un := fun op x hEP => by
          simp only [Expression.allSub, notReturnArm, Bool.and_eq_true,
            Bool.true_and] at hEP
          exact hEP
        ep_static := fun f args hEP => by
          simp only [Expression.allSub, notReturnArm, Bool.and_eq_true,
            Bool.true_and] at hEP
          exact allSubList_forall TS _ args hEP
        ep_dyn := fun fe args hEP => by
          simp only [Expression.allSub, notReturnArm, Bool.and_eq_true,
            Bool.true_and] at hEP
          exact ⟨hEP.1, allSubList_forall TS _ args hEP.2⟩
        ep_assign_stack := fun i e hEP => by
          simp only [Expression.allSub, notReturnArm, Bool.and_eq_true,
            Bool.true_and] at hEP
          exact hEP
        ep_assign_global := fun i e hEP => by
          simp only [Expression.allSub, notReturnArm, Bool.and_eq_true,
            Bool.true_and] at hEP
          exact hEP
        ep_assign_dyn := fun t v hEP => by
          simp only [Expression.allSub, notReturnArm, Bool.and_eq_true,
            Bool.true_and] at hEP
          exact hEP
        ep_native := fun id args hEP => by
          simp only [Expression.allSub, notReturnArm, Bool.and_eq_true,
            Bool.true_and] at hEP
          exact allSubList_forall TS _ args hEP
        ep_init := fun ini args hEP => by
          simp only [Expression.allSub, notReturnArm, Bool.and_eq_true,
            Bool.true_and] at hEP
          exact allSubList_forall TS _ args hEP
        ep_rt := fun t e hEP => by
          simp only [Expression.allSub, notReturnArm, Bool.and_eq_true,
            Bool.true_and] at hEP
          exact hEP
        ep_ret := fun t e hEP => by
          simp [Expression.allSub, notReturnArm] at hEP }
  refine ⟨?_, ?_, ?_⟩
  · intro fuel t e s st cap v s1 st1 h
    exact eval_Return_ok TS fuel natives t e s s1 st cap st1 v h
  · intro fuel t e s st cap s1 st1 h
    exact eval_ReturnTarget_matching TS fuel natives t e s s1 st cap st1 h
  · intro fuel e s st cap hE hRF
    exact (master s.return_value fuel).1 e s st cap hE ⟨rfl, hRF⟩

/-- Claim C5, witness: on the concrete engine, `Return` deposits 7 into
`return_value`, and evaluating a `Return`-free assignment expression preserves the
slot; both instantiated from `return_value_usage_amended` with the native hypothesis
discharged for the no-op natives. -/
theorem return_value_usage_witness :
    (evaluate IntTS 2 trivNatives (.Return 0 (.RawValue (.int 7)))
        (mkIntEngine 0 [] [] 0 0 .uninit) [] [] =
      .err (.Return 0) { mkIntEngine 0 [] [] 0 0 .uninit with return_value := .int 7 } [])
    ∧ EvalResult.Preserves IntTS
        (fun s2 => s2.return_value = (mkIntEngine 0 [] [] 0 0 .uninit).return_value
          ∧ RetFreeState IntTS s2) (fun _ => True)
        (evaluate IntTS 3 trivNatives (.AssignStack 0 (.RawValue (.int 5)))
          (mkIntEngine 0 [] [] 0 0 .uninit) [.uninit] []) :=
  ⟨(return_value_usage_amended IntTS trivNatives (fun _ s _ h => ⟨rfl, h⟩)).1
      1 0 (.RawValue (.int 7)) (mkIntEngine 0 [] [] 0 0 .uninit) [] [] (.int 7)
      (mkIntEngine 0 [] [] 0 0 .uninit) [] rfl,
   (return_value_usage_amended IntTS trivNatives (fun _ s _ h => ⟨rfl, h⟩)).2.2
      3 (.AssignStack 0 (.RawValue (.int 5))) (mkIntEngine 0 [] [] 0 0 .uninit)
      [.uninit] [] rfl (fun fn hm => absurd hm (List.not_mem_nil fn))⟩

/-- Claim C7: the evaluator raises `InvalidInvocationTarget` in exactly two places:
when the evaluated target of a `DynamicFunctionCall` fails `cast_to_function`, and
when `FunctionCapture` is applied to a handle whose function type is `Static` or
already `CapturingRef`; no other arm produces this error directly — evaluating any
expression free of those two arms, over a table of such expressions and natives that
never produce the error, never results in `InvalidInvocationTarget`. -/
theorem invalid_invocation_cases (TS : TypeSystem) (natives : Natives TS)
    (hN : ∀ id (s : ExecutionEngine TS) args, InvFreeState TS s →
      InvFreeState TS (natives id s args).2 ∧
        ∀ e, (natives id s args).1 = .error e →
          e ≠ FreightError.InvalidInvocationTarget) :
    (∀ fuel (fe : Expression TS) args fv s st cap s1 st1,
      evaluate TS fuel natives fe s st cap = .ok fv s1 st1 →
      TS.castToFunction fv s1.world = none →
      evaluate TS (fuel + 1) natives (.DynamicFunctionCall fe args) s st cap =
        .err .InvalidInvocationTarget s1 st1)
    ∧ (∀ fuel (f : FunctionRef TS.Value) s st cap,
        f.function_type = FunctionType.Static →
        evaluate TS (fuel + 1) natives (.FunctionCapture f) s st cap =
          .err .InvalidInvocationTarget s st)
    ∧ (∀ fuel (f : FunctionRef TS.Value) captures s st cap,
        f.function_type = FunctionType.CapturingRef captures →
        evaluate TS (fuel + 1) natives (.FunctionCapture f) s st cap =
          .err .InvalidInvocationTarget s st)
    ∧ (∀ fuel (e : Expression TS) s st cap,
        Expression.allSub TS (notInvArm TS) e = true → InvFreeState TS s →
        EvalResult.Preserves TS (InvFreeState TS)
          (fun er => er ≠ FreightError.InvalidInvocationTarget)
          (evaluate TS fuel natives e s st cap)) := by
  have master := eval_invariant TS natives
    { SP := InvFreeState TS
      EP := fun e => Expression.allSub TS (notInvArm TS) e = true
      EE := fun er => er ≠ FreightError.InvalidInvocationTarget
      sp_world := fun s2 w h => h
      sp_set_global := fun s2 i v w h => h
      sp_ret := fun t e _ s2 v h => h
      sp_table := fun s2 h fn hm e he => h fn hm e he
      ee_argcount := fun a b c h => FreightError.noConfusion h
      ee_ret := fun t e _ h => FreightError.noConfusion h
      ee_inv_dyn := fun fe args hEP => by
        simp [Expression.allSub, notInvArm] at hEP
      ee_inv_cap := fun f hEP => by
        simp [Expression.allSub, notInvArm] at hEP
      natives_ok := fun id s2 args h => hN id s2 args h
      ep_bin := fun op l r hEP => by
        simp only [Expression.allSub, notInvArm, Bool.and_eq_true,
          Bool.true_and] at hEP
        exact hEP
      ep_un := fun op x hEP => by
        simp only [Expression.allSub, notInvArm, Bool.and_eq_true,
          Bool.true_and] at hEP
        exact hEP
      ep_static := fun f args hEP => by
        simp only [Expression.allSub, notInvArm, Bool.and_eq_true,
          Bool.true_and] at hEP
        exact allSubList_forall TS _ args hEP
      ep_dyn := fun fe args hEP => by
        simp [Expression.allSub, notInvArm] at hEP
      ep_assign_stack := fun i e hEP => by
        simp only [Expression.allSub, notInvArm, Bool.and_eq_true,
          Bool.true_and] at hEP
        exact hEP
      ep_assign_global := fun i e hEP => by
        simp only [Expression.allSub, notInvArm, Bool.and_eq_true,
          Bool.true_and] at hEP
        exact hEP
      ep_assign_dyn := fun t v hEP => by
        simp only [Expression.allSub, notInvArm, Bool.and_eq_true,
          Bool.true_and] at hEP
        exact hEP
      ep_native := fun id args hEP => by
        simp only [Expression.allSub, notInvArm, Bool.and_eq_true,
          Bool.true_and] at hEP
        exact allSubList_forall TS _ args hEP
      ep_init := fun ini args hEP => by
        simp only [Expression.allSub, notInvArm, Bool.and_eq_true,
          Bool.true_and] at hEP
        exact allSubList_forall TS _ args hEP
      ep_rt := fun t e hEP => by
        simp only [Expression.allSub, notInvArm, Bool.and_eq_true,
          Bool.true_and] at hEP
        exact hEP
      ep_ret := fun t e hEP => by
        simp only [Expression.allSub, notInvArm, Bool.and_eq_true,
          Bool.true_and] at hEP
        exact hEP }
  refine ⟨?_, ?_, ?_, ?_⟩
  · intro fuel fe args fv s st cap s1 st1 h hcast
    simp only [evaluate, h, hcast]
  · intro fuel f s st cap hft
    obtain ⟨loc, ac, ssz, vc, ft⟩ := f
    simp only at hft
    subst hft
    simp only [evaluate]
  · intro fuel f captures s st cap hft
    obtain ⟨loc, ac, ssz, vc, ft⟩ := f
    simp only at hft
    subst hft
    simp only [evaluate]
  · intro fuel e s st cap hE hIF
    exact (master fuel).1 e s st cap hE hIF

/-- Claim C7, witness: a non-callable dynamic target and a `FunctionCapture` of a
static handle both yield `InvalidInvocationTarget` on the concrete engine, and an
arm-free expression never produces the error; all instantiated from
`invalid_invocation_cases` with the native hypothesis discharged. -/
theorem invalid_invocation_witness :
    (evaluate IntTS 2 trivNatives (.DynamicFunctionCall (.RawValue (.int 1)) [])
      (mkIntEngine 0 [] [] 0 0 .uninit) [] [] =
      .err .InvalidInvocationTarget (mkIntEngine 0 [] [] 0 0 .uninit) [])
    ∧ (evaluate IntTS 2 trivNatives (.FunctionCapture addTwoRef)
      (mkIntEngine 0 [] [] 0 0 .uninit) [] [] =
      .err .InvalidInvocationTarget (mkIntEngine 0 [] [] 0 0 .uninit) [])
    ∧ (evaluate IntTS 2 trivNatives (.FunctionCapture capRefHandle)
      (mkIntEngine 0 [] [] 0 0 .uninit) [] [] =
      .err .InvalidInvocationTarget (mkIntEngine 0 [] [] 0 0 .uninit) [])
    ∧ EvalResult.Preserves IntTS (InvFreeState IntTS)
        (fun er => er ≠ FreightError.InvalidInvocationTarget)
        (evaluate IntTS 3 trivNatives (.RawValue (.int 2))
          (mkIntEngine 0 [] [] 0 0 .uninit) [] []) :=
  ⟨(invalid_invocation_cases IntTS trivNatives
      (fun _ s _ h => ⟨h, fun e he => Except.noConfusion he⟩)).1
      1 (.RawValue (.int 1)) [] (.int 1) (mkIntEngine 0 [] [] 0 0 .uninit) [] []
      (mkIntEngine 0 [] [] 0 0 .uninit) [] rfl rfl,
   (invalid_invocation_cases IntTS trivNatives
      (fun _ s _ h => ⟨h, fun e he => Except.noConfusion he⟩)).2.1
      1 addTwoRef (mkIntEngine 0 [] [] 0 0 .uninit) [] [] rfl,
   (invalid_invocation_cases IntTS trivNatives
      (fun _ s _ h => ⟨h, fun e he => Except.noConfusion he⟩)).2.2.1
      1 capRefHandle [] (mkIntEngine 0 [] [] 0 0 .uninit) [] [] rfl,
   (invalid_invocation_cases IntTS trivNatives
      (fun _ s _ h => ⟨h, fun e he => Except.noConfusion he⟩)).2.2.2
      3 (.RawValue (.int 2)) (mkIntEngine 0 [] [] 0 0 .uninit) [] [] rfl
      (fun fn hm => absurd hm (List.not_mem_nil fn))⟩

end Fengine
